import Mathlib

/-!
# chunkymonkey: slot algebra, packet serializer, player session and recorder

A shallow embedding of `src/lib/chunkymonkey/slot.go` (inventory slots),
`src/chunkymonkey/proto/proto2.go` (reflection driven packet serializer), of the
keep-alive, movement, block interaction, window transaction and window opening
methods of `src/chunkymonkey/player/player.go`, of the function tested by
`src/lib/chunkymonkey/chunk_test.go`, and of `src/chunkymonkey/record/record.go`
(recording and replaying of received data), followed by the properties established
about them.

Conventions of the embedding:

* A Go method with a pointer receiver and a pointer argument, called on two
  distinct objects, becomes a function from the two old values to the two new
  values and the returned flag.
* The integer types `ItemTypeId`, `ItemCount` and `ItemData` are declared in
  `chunkymonkey/types`; they are embedded as `Int`.  Every operation below stays
  within the range `0 .. 127` on counts whenever the counts start in
  `0 .. SlotCountMax`, which is the assumption spelled out in the source of `Add`.
* The constant `ItemTypeIdNull` is declared in `chunkymonkey/types` as well; the
  operations take it as their first argument.
-/

namespace Chunkymonkey

/-! ## Slots -/

/-- The constant `SlotCountMax = ItemCount(64)`. -/
def SlotCountMax : Int := 64

/-- An inventory slot: `type Slot struct { ItemTypeId; Count; Data }`. -/
structure Slot where
  ItemTypeId : Int
  Count : Int
  Data : Int
deriving DecidableEq, Repr

namespace Slot

/-- The method `Init`: the three assignments of the source. -/
def Init (ItemTypeIdNull : Int) (s : Slot) : Slot :=
  let s := { s with ItemTypeId := ItemTypeIdNull }
  let s := { s with Count := 0 }
  { s with Data := 0 }

/-- The method `setCount`: store the count, and zero the slot canonically when the
count is `0`. -/
def setCount (ItemTypeIdNull : Int) (s : Slot) (count : Int) : Slot :=
  let s := { s with Count := count }
  if s.Count = 0 then
    { s with ItemTypeId := ItemTypeIdNull, Data := 0 }
  else s

/-- The part of `Add` after the compatibility checks (from `if s.Count >= SlotCountMax`
to the final `return`). -/
def addTransfer (ItemTypeIdNull : Int) (s src : Slot) : Slot × Slot × Bool :=
  if s.Count ≥ SlotCountMax then (s, src, false)
  else
    let s := { s with ItemTypeId := src.ItemTypeId }
    let toTransfer := src.Count
    let toTransfer :=
      if s.Count + toTransfer > SlotCountMax then SlotCountMax - s.Count else toTransfer
    if toTransfer ≠ 0 then
      let s := { s with Data := src.Data }
      let s := setCount ItemTypeIdNull s (s.Count + toTransfer)
      let src := setCount ItemTypeIdNull src (src.Count - toTransfer)
      (s, src, true)
    else (s, src, false)

/-- The method `s.Add(src)`; the result is `(s, src, changed)` after the call. -/
def Add (ItemTypeIdNull : Int) (s src : Slot) : Slot × Slot × Bool :=
  if s.ItemTypeId ≠ ItemTypeIdNull then
    if s.ItemTypeId ≠ src.ItemTypeId then (s, src, false)
    else if s.Data ≠ src.Data then (s, src, false)
    else addTransfer ItemTypeIdNull s src
  else addTransfer ItemTypeIdNull s src

/-- One `x ^= y; y ^= x; x ^= y` exchange of the source, guarded by `x != y`:
the new `(x, y)` and whether the guard fired. -/
def xorSwap (x y : Int) : Int × Int × Bool :=
  if x ≠ y then
    let x := Int.xor x y
    let y := Int.xor y x
    let x := Int.xor x y
    (x, y, true)
  else (x, y, false)

/-- The method `s.Swap(src)`; the result is `(s, src, changed)` after the call. -/
def Swap (s src : Slot) : Slot × Slot × Bool :=
  let changed := false
  let (t, u, c) := xorSwap s.ItemTypeId src.ItemTypeId
  let s := { s with ItemTypeId := t }
  let src := { src with ItemTypeId := u }
  let changed := changed || c
  let (t, u, c) := xorSwap s.Count src.Count
  let s := { s with Count := t }
  let src := { src with Count := u }
  let changed := changed || c
  let (t, u, c) := xorSwap s.Data src.Data
  let s := { s with Data := t }
  let src := { src with Data := u }
  let changed := changed || c
  (s, src, changed)

/-- The method `s.Split(src)`; the result is `(s, src, changed)` after the call. -/
def Split (ItemTypeIdNull : Int) (s src : Slot) : Slot × Slot × Bool :=
  if s.Count = 0 ∨ src.Count ≠ 0 then (s, src, false)
  else
    let src := { src with ItemTypeId := s.ItemTypeId }
    let src := { src with Data := s.Data }
    let count := Int.shiftRight s.Count 1
    let odd := Int.land s.Count 1
    let src := { src with Count := count + odd }
    let s := { s with Count := count }
    let s := if s.Count = 0 then { s with ItemTypeId := ItemTypeIdNull, Data := 0 } else s
    (s, src, true)

/-- The method `s.AddOne(src)`; the result is `(s, src, changed)` after the call. -/
def AddOne (ItemTypeIdNull : Int) (s src : Slot) : Slot × Slot × Bool :=
  if src.Count = 0 ∨ s.Count ≥ SlotCountMax then (s, src, false)
  else if src.Data ≠ s.Data then (s, src, false)
  else if s.ItemTypeId ≠ src.ItemTypeId ∧ s.ItemTypeId ≠ ItemTypeIdNull then (s, src, false)
  else
    let s := { s with Count := s.Count + 1 }
    let src := { src with Count := src.Count - 1 }
    let s := { s with ItemTypeId := src.ItemTypeId }
    let s := { s with Data := src.Data }
    let src :=
      if src.Count = 0 then { src with ItemTypeId := ItemTypeIdNull, Data := 0 } else src
    (s, src, true)

/-- The caller's loop `for i := 0; i < n; i++ { changed = s.AddOne(src) || changed }`:
`n` successive calls of `AddOne` on the same two slots, with the disjunction of the
returned flags. -/
def AddOneTimes (ItemTypeIdNull : Int) : Nat → Slot → Slot → Slot × Slot × Bool
  | 0, s, src => (s, src, false)
  | n + 1, s, src =>
    let (s1, src1, c1) := AddOne ItemTypeIdNull s src
    let (s2, src2, c2) := AddOneTimes ItemTypeIdNull n s1 src1
    (s2, src2, c1 || c2)

/-- The slot invariant of the specification: `Count == 0` exactly when the slot is
canonically zeroed, and `0 <= Count <= SlotCountMax`. -/
def Inv (ItemTypeIdNull : Int) (s : Slot) : Prop :=
  (s.Count = 0 ↔ (s.ItemTypeId = ItemTypeIdNull ∧ s.Data = 0)) ∧
    0 ≤ s.Count ∧ s.Count ≤ SlotCountMax

instance (ItemTypeIdNull : Int) (s : Slot) : Decidable (Inv ItemTypeIdNull s) := by
  unfold Inv; infer_instance

/-- The canonical empty slot `{Null, 0, 0}`. -/
def empty (ItemTypeIdNull : Int) : Slot := ⟨ItemTypeIdNull, 0, 0⟩

end Slot

/-! ## Packet serializer

Conventions of the embedding:

* A byte is a natural number below `256`; an `io.Reader` is the list of the bytes it
  still has to deliver, and an `io.Writer` is the list of the bytes written so far (a
  buffer, whose `Write` never fails).
* A `reflect.Value` is embedded by `Value`: one constructor per kind handled by the
  serializer and one for every other kind.  A signed field holds an `Int` and an
  unsigned field a `Nat`; `SetInt` and `SetUint` truncate to the width of the field as
  in package `reflect`.  A floating point field is held as its IEEE bit pattern, the
  widening to `float64` and back being taken as exact.  A string is held as the list of
  its code points.
* The scratch array of `PacketSerializer` only carries bytes from the reader to the
  conversion, or from the conversion to the writer, inside one case of the switch; it
  is not part of the state of the embedding.
-/

namespace Proto

/-- The error values of the package, with the two errors of `io.ReadFull` and the
run-time panic of `reflect` on the zero `Value`. -/
inductive Error
  | ErrorPacketNotPtr
  | ErrorPacketNil
  | ErrorStrLengthNegative
  | ErrorStrTooLong
  | ErrorInternal
  | EOF
  | ErrUnexpectedEOF
  | Panic
deriving DecidableEq, Repr

/-- A `reflect.Value`, by kind.  `other typ` is a value of any kind the serializer has no
case for (slice, map, pointer, `int`, `uint`, ...), `typ` being the name of its type. -/
inductive Value
  | struct (fields : List Value)
  | bool (b : Bool)
  | int8 (v : Int)
  | int16 (v : Int)
  | int32 (v : Int)
  | int64 (v : Int)
  | uint8 (v : Nat)
  | uint16 (v : Nat)
  | uint32 (v : Nat)
  | uint64 (v : Nat)
  | float32 (bits : Nat)
  | float64 (bits : Nat)
  | string (s : List Nat)
  | other (typ : String)
deriving Repr

/-- The `packet interface{}` argument: a value that is not a pointer, a nil pointer, or
a pointer to a value. -/
inductive Packet
  | val (v : Value)
  | nilPtr
  | ptr (v : Value)
deriving Repr

/-- The constant `math.MaxInt16`. -/
def MaxInt16 : Int := 32767

/-- The conversion of an integer to the signed type of `w` bits (`int8(x)`, `int16(x)`,
...): two's complement wrap-around. -/
def toSigned (w : Nat) (x : Int) : Int :=
  (x + 2 ^ (w - 1)) % 2 ^ w - 2 ^ (w - 1)

/-- The conversion of an integer to the unsigned type of `w` bits (`byte(x)`,
`uint16(x)`, ...). -/
def toUnsigned (w : Nat) (x : Int) : Nat :=
  (x % 2 ^ w).toNat

/-- The functions `binary.BigEndian.Uint16`, `Uint32`, `Uint64` (and the single byte
`scratch[0]`): the number whose big-endian digits in base 256 are the given bytes. -/
def beUint (b : List Nat) : Nat :=
  b.foldl (fun acc x => acc * 256 + x) 0

/-- The functions `binary.BigEndian.PutUint16`, `PutUint32`, `PutUint64` (and the store
to `scratch[0]`): the `n` low-order bytes of `v`, most significant first. -/
def bePut : Nat → Nat → List Nat
  | 0, _ => []
  | n + 1, v => bePut n (v / 256) ++ [v % 256]

/-- The function `io.ReadFull(reader, buf)` with `len(buf) = n`: the error, the bytes
stored in `buf`, and the reader afterwards. -/
def readFull (reader : List Nat) (n : Nat) : Option Error × List Nat × List Nat :=
  if n ≤ reader.length then (none, reader.take n, reader.drop n)
  else if reader.length = 0 then (some Error.EOF, [], [])
  else (some Error.ErrUnexpectedEOF, reader, [])

/-- The big-endian decoding of a byte sequence into 16-bit values, two bytes each. -/
def uint16sOfBytes : List Nat → List Nat
  | b0 :: b1 :: rest => beUint [b0, b1] :: uint16sOfBytes rest
  | _ => []

/-- The function `binary.Read(reader, binary.BigEndian, codepoints)` for a slice of
`n` values of type `uint16`: one `io.ReadFull` of `2 * n` bytes, then the decoding. -/
def binaryRead (reader : List Nat) (n : Nat) : Option Error × List Nat × List Nat :=
  match readFull reader (2 * n) with
  | (some err, _, reader) => (some err, [], reader)
  | (none, buf, reader) => (none, uint16sOfBytes buf, reader)

/-- The function `binary.Write(writer, binary.BigEndian, codepoints)` for a slice of
`uint16`: two bytes per value, most significant first. -/
def binaryWrite (writer : List Nat) (codepoints : List Nat) : List Nat :=
  writer ++ (codepoints.map (bePut 2)).flatten

/-- The function `utf8.RuneLen`: the number of bytes of the UTF-8 encoding of a code
point. -/
def runeLen (r : Nat) : Nat :=
  if r < 0x80 then 1 else if r < 0x800 then 2 else if r < 0x10000 then 3 else 4

/-- The length `value.Len()` of a string value: its number of bytes, that is the sum of
the UTF-8 lengths of its code points. -/
def stringLen (s : List Nat) : Nat :=
  (s.map runeLen).sum

/-- Modelled from the spec: `decodeUtf8` is defined in a file of package `proto` that is
not part of the sources at hand.  It transcodes a string of the host representation
into 16-bit code units, one unit per code point. -/
def decodeUtf8 (s : List Nat) : List Nat :=
  s.map (fun cp => cp % 65536)

/-- Modelled from the spec: `encodeUtf8` is defined in a file of package `proto` that is
not part of the sources at hand.  It transcodes 16-bit code units to the host string
representation, one code point per unit. -/
def encodeUtf8 (codepoints : List Nat) : List Nat :=
  codepoints

mutual

/-- The method `readData`: the error, the destination value afterwards, and the reader
afterwards. -/
def readData : List Nat → Value → Option Error × Value × List Nat
  | reader, .struct fields =>
    match readFields reader fields with
    | (err, fields, reader) => (err, .struct fields, reader)
  | reader, .bool b =>
    match readFull reader 1 with
    | (some err, _, reader) => (some err, .bool b, reader)
    | (none, scratch, reader) => (none, .bool (beUint scratch != 0), reader)
  | reader, .int8 v =>
    match readFull reader 1 with
    | (some err, _, reader) => (some err, .int8 v, reader)
    | (none, scratch, reader) => (none, .int8 (toSigned 8 (beUint scratch)), reader)
  | reader, .int16 v =>
    match readFull reader 2 with
    | (some err, _, reader) => (some err, .int16 v, reader)
    | (none, scratch, reader) => (none, .int16 (toSigned 16 (beUint scratch)), reader)
  | reader, .int32 v =>
    match readFull reader 4 with
    | (some err, _, reader) => (some err, .int32 v, reader)
    | (none, scratch, reader) => (none, .int32 (toSigned 32 (beUint scratch)), reader)
  | reader, .int64 v =>
    match readFull reader 8 with
    | (some err, _, reader) => (some err, .int64 v, reader)
    | (none, scratch, reader) => (none, .int64 (toSigned 64 (beUint scratch)), reader)
  | reader, .uint8 v =>
    match readFull reader 1 with
    | (some err, _, reader) => (some err, .uint8 v, reader)
    | (none, scratch, reader) => (none, .uint8 (toUnsigned 8 (beUint scratch)), reader)
  | reader, .uint16 v =>
    match readFull reader 2 with
    | (some err, _, reader) => (some err, .uint16 v, reader)
    | (none, scratch, reader) => (none, .uint16 (toUnsigned 16 (beUint scratch)), reader)
  | reader, .uint32 v =>
    match readFull reader 4 with
    | (some err, _, reader) => (some err, .uint32 v, reader)
    | (none, scratch, reader) => (none, .uint32 (toUnsigned 32 (beUint scratch)), reader)
  | reader, .uint64 v =>
    match readFull reader 8 with
    | (some err, _, reader) => (some err, .uint64 v, reader)
    | (none, scratch, reader) => (none, .uint64 (toUnsigned 64 (beUint scratch)), reader)
  | reader, .float32 bits =>
    match readFull reader 4 with
    | (some err, _, reader) => (some err, .float32 bits, reader)
    | (none, scratch, reader) => (none, .float32 (beUint scratch), reader)
  | reader, .float64 bits =>
    match readFull reader 8 with
    | (some err, _, reader) => (some err, .float64 bits, reader)
    | (none, scratch, reader) => (none, .float64 (beUint scratch), reader)
  | reader, .string s =>
    match readFull reader 2 with
    | (some err, _, reader) => (some err, .string s, reader)
    | (none, scratch, reader) =>
      let length := toSigned 16 (beUint scratch)
      if length < 0 then (some Error.ErrorStrLengthNegative, .string s, reader)
      else
        match binaryRead reader length.toNat with
        | (some err, _, reader) => (some err, .string s, reader)
        | (none, codepoints, reader) => (none, .string (encodeUtf8 codepoints), reader)
  | reader, .other typ => (some Error.ErrorInternal, .other typ, reader)

/-- The loop of `readData` over the fields of a struct, from the first of the given
fields on; it stops at the first error. -/
def readFields : List Nat → List Value → Option Error × List Value × List Nat
  | reader, [] => (none, [], reader)
  | reader, field :: rest =>
    match readData reader field with
    | (some err, field, reader) => (some err, field :: rest, reader)
    | (none, field, reader) =>
      match readFields reader rest with
      | (err, rest, reader) => (err, field :: rest, reader)

end

/-- The method `ReadPacket`: the error, the packet argument afterwards, and the reader
afterwards. -/
def ReadPacket (reader : List Nat) (packet : Packet) : Option Error × Packet × List Nat :=
  match packet with
  | .val v => (some Error.ErrorPacketNotPtr, .val v, reader)
  | .nilPtr => (some Error.ErrorPacketNil, .nilPtr, reader)
  | .ptr v =>
    match readData reader v with
    | (err, v, reader) => (err, .ptr v, reader)

mutual

/-- The method `writeData`: the error and the writer afterwards. -/
def writeData : List Nat → Value → Option Error × List Nat
  | writer, .struct fields => writeFields writer fields
  | writer, .bool b => (none, writer ++ bePut 1 (if b then 1 else 0))
  | writer, .int8 v => (none, writer ++ bePut 1 (toUnsigned 8 v))
  | writer, .int16 v => (none, writer ++ bePut 2 (toUnsigned 16 v))
  | writer, .int32 v => (none, writer ++ bePut 4 (toUnsigned 32 v))
  | writer, .int64 v => (none, writer ++ bePut 8 (toUnsigned 64 v))
  | writer, .uint8 v => (none, writer ++ bePut 1 (toUnsigned 8 v))
  | writer, .uint16 v => (none, writer ++ bePut 2 (toUnsigned 16 v))
  | writer, .uint32 v => (none, writer ++ bePut 4 (toUnsigned 32 v))
  | writer, .uint64 v => (none, writer ++ bePut 8 v)
  | writer, .float32 bits => (none, writer ++ bePut 4 bits)
  | writer, .float64 bits => (none, writer ++ bePut 8 bits)
  | writer, .string s =>
    let lengthInt : Int := stringLen s
    if lengthInt > MaxInt16 then (some Error.ErrorStrTooLong, writer)
    else
      let writer := writer ++ bePut 2 (toUnsigned 16 lengthInt)
      let codepoints := decodeUtf8 s
      (none, binaryWrite writer codepoints)
  | writer, .other _ => (some Error.ErrorInternal, writer)

/-- The loop of `writeData` over the fields of a struct; it stops at the first error. -/
def writeFields : List Nat → List Value → Option Error × List Nat
  | writer, [] => (none, writer)
  | writer, field :: rest =>
    match writeData writer field with
    | (some err, writer) => (some err, writer)
    | (none, writer) => writeFields writer rest

end

/-- The method `WritePacket`: the error and the writer afterwards.  A pointer is
dereferenced first; the zero `Value` obtained from a nil pointer reaches the default
case of `writeData`, where `value.Type()` panics. -/
def WritePacket (writer : List Nat) (packet : Packet) : Option Error × List Nat :=
  match packet with
  | .val v => writeData writer v
  | .ptr v => writeData writer v
  | .nilPtr => (some Error.Panic, writer)

mutual

/-- The records of the round-trip law for integers: every field, at any nesting depth,
is a `bool` or an integer of fixed width, and holds a value of its type. -/
def isFixedInt : Value → Bool
  | .struct fields => allFixedInt fields
  | .bool _ => true
  | .int8 v => decide (-2 ^ 7 ≤ v ∧ v < 2 ^ 7)
  | .int16 v => decide (-2 ^ 15 ≤ v ∧ v < 2 ^ 15)
  | .int32 v => decide (-2 ^ 31 ≤ v ∧ v < 2 ^ 31)
  | .int64 v => decide (-2 ^ 63 ≤ v ∧ v < 2 ^ 63)
  | .uint8 v => decide (v < 2 ^ 8)
  | .uint16 v => decide (v < 2 ^ 16)
  | .uint32 v => decide (v < 2 ^ 32)
  | .uint64 v => decide (v < 2 ^ 64)
  | .float32 _ => false
  | .float64 _ => false
  | .string _ => false
  | .other _ => false

/-- The condition `isFixedInt` on every field of a list. -/
def allFixedInt : List Value → Bool
  | [] => true
  | field :: rest => isFixedInt field && allFixedInt rest

end

mutual

/-- Two values are of the same type: the same kind, and for structs the same number of
fields with pairwise the same types. -/
def sameType : Value → Value → Bool
  | .struct fs, .struct gs => sameTypes fs gs
  | .bool _, .bool _ => true
  | .int8 _, .int8 _ => true
  | .int16 _, .int16 _ => true
  | .int32 _, .int32 _ => true
  | .int64 _, .int64 _ => true
  | .uint8 _, .uint8 _ => true
  | .uint16 _, .uint16 _ => true
  | .uint32 _, .uint32 _ => true
  | .uint64 _, .uint64 _ => true
  | .float32 _, .float32 _ => true
  | .float64 _, .float64 _ => true
  | .string _, .string _ => true
  | .other s, .other t => s == t
  | _, _ => false

/-- The condition `sameType` on two lists of fields. -/
def sameTypes : List Value → List Value → Bool
  | [], [] => true
  | f :: fs, g :: gs => sameType f g && sameTypes fs gs
  | _, _ => false

end

/-- The big-endian encoding of `x` on `w` bytes, as the specification words it: byte `i`
(counted from the first, most significant one) is digit `w - 1 - i` of `x` in base
`256`. -/
def bigEndian (w x : Nat) : List Nat :=
  (List.range w).map fun i => x / 256 ^ (w - 1 - i) % 256

mutual

/-- The wire form of a record according to the specification: the concatenation, in
declaration order and with nested records flattened in place, of the big-endian
encoding of each field, on 1 byte for `bool`, `int8`, `uint8`, on 2 bytes for `int16`,
`uint16`, on 4 for `int32`, `uint32` and on 8 for `int64`, `uint64`; a signed value is
encoded in two's complement.  Fields of the other kinds are outside that sentence and
contribute nothing here. -/
def wireForm : Value → List Nat
  | .struct fields => wireForms fields
  | .bool b => bigEndian 1 (if b then 1 else 0)
  | .int8 v => bigEndian 1 (toUnsigned 8 v)
  | .int16 v => bigEndian 2 (toUnsigned 16 v)
  | .int32 v => bigEndian 4 (toUnsigned 32 v)
  | .int64 v => bigEndian 8 (toUnsigned 64 v)
  | .uint8 v => bigEndian 1 v
  | .uint16 v => bigEndian 2 v
  | .uint32 v => bigEndian 4 v
  | .uint64 v => bigEndian 8 v
  | .float32 _ => []
  | .float64 _ => []
  | .string _ => []
  | .other _ => []

/-- The concatenation of the wire forms of a list of fields. -/
def wireForms : List Value → List Nat
  | [] => []
  | field :: rest => wireForm field ++ wireForms rest

end

mutual

/-- The wire width of a record of fixed-width fields: the sum of the widths of its
fields, 1 for `bool`, `int8`, `uint8`, 2 for `int16`, `uint16`, 4 for `int32`, `uint32`,
8 for `int64`, `uint64`. -/
def wireWidth : Value → Nat
  | .struct fields => wireWidths fields
  | .bool _ => 1
  | .int8 _ => 1
  | .int16 _ => 2
  | .int32 _ => 4
  | .int64 _ => 8
  | .uint8 _ => 1
  | .uint16 _ => 2
  | .uint32 _ => 4
  | .uint64 _ => 8
  | .float32 _ => 0
  | .float64 _ => 0
  | .string _ => 0
  | .other _ => 0

/-- The sum of the wire widths of a list of fields. -/
def wireWidths : List Value → Nat
  | [] => 0
  | field :: rest => wireWidth field + wireWidths rest

end

mutual

/-- The record has, at some nesting depth, a field of a kind the serializer has no case
for. -/
def hasUnsupported : Value → Bool
  | .struct fields => anyUnsupported fields
  | .other _ => true
  | .bool _ => false
  | .int8 _ => false
  | .int16 _ => false
  | .int32 _ => false
  | .int64 _ => false
  | .uint8 _ => false
  | .uint16 _ => false
  | .uint32 _ => false
  | .uint64 _ => false
  | .float32 _ => false
  | .float64 _ => false
  | .string _ => false

/-- The condition `hasUnsupported` on some field of a list. -/
def anyUnsupported : List Value → Bool
  | [] => false
  | field :: rest => hasUnsupported field || anyUnsupported rest

end

/-- The value is not a nested record. -/
def isStruct : Value → Bool
  | .struct _ => true
  | _ => false

end Proto

/-! ## Player session

Conventions of the embedding:

* A method of `*Player` becomes a function from the player state before the call to the
  player state after it.  Values the method takes from its environment are arguments:
  the flag `*playerPingNoCheck`, the result of `rand.Int31()`, the result of
  `time.Nanoseconds()`.
* A buffered channel is the list of the values waiting in it.  A send on `txQueue`
  appends (the wait for room in a full queue is not represented); the non-blocking send
  of `Stop` appends when there is room in the channel of capacity 1.
* The packets given to `game.BroadcastPacket` are recorded, in order, in the field
  `gameBroadcast`.
* A `*time.Timer` is held as the duration it was created with, `none` for `nil`;
  stopping a timer that is then replaced leaves no trace.
* The calls a method makes on its collaborators are recorded, in order, in the state:
  `chunkSubs.Move` in the field `chunkSubsMove`, the requests to shard clients in the
  field `shardRequests`.  What a method asks of a collaborator or of package
  `chunkymonkey/types`, neither being among the sources at hand, is an argument of the
  embedded method: the constants `WindowIdInventory`, `WindowIdCursor`, `SlotIdCursor`,
  `FaceMinValid`, `FaceMaxValid`, `MaxInteractDistance`, and the functions
  `IsWithinDistanceOf`, `MidPointToAbsXyz`, `ShardClientForBlockXyz`, `HeldItem`, `Click`,
  `IsForBlock`, `NewWindow`, and the constants `WindowIdFreeMin`, `WindowIdFreeMax`.  The
  calls made when a window is closed are recorded in the field `windowCalls`.
* A coordinate of type `AbsCoord` is held as the bit pattern of its `float64`; the
  subtraction of two coordinates is an argument of the embedded method.
-/

namespace Player

/-- Modelled from the spec: the functions `proto.WriteKeepAlive`,
`proto.WriteUserListItem`, `proto.WriteWindowTransaction` and `proto.WriteWindowSetSlot`
are defined in a file of package `proto` that is not part of the sources at hand, and
the methods `WriteWindowOpen` and `WriteWindowItems` of a window in package `window`,
which is not among them either.  What one call writes to a buffer is held as the call
itself: the function and its arguments, or the method and the id of its window. -/
inductive Message
  | keepAlive (id : Int)
  | userListItem (name : String) (online : Bool) (pingMs : Int)
  | windowTransaction (windowId txId : Int) (accepted : Bool)
  | windowSetSlot (windowId slotId itemTypeId count data : Int)
  | windowOpen (windowId : Int)
  | windowItems (windowId : Int)
deriving DecidableEq, Repr

/-- The type `AbsXyz` of package `chunkymonkey/types`: three coordinates of type
`AbsCoord`. -/
structure AbsXyz where
  X : Nat
  Y : Nat
  Z : Nat
deriving DecidableEq, Repr

/-- The type `BlockXyz` of package `chunkymonkey/types`: the integer coordinates of a
block. -/
structure BlockXyz where
  X : Int
  Y : Int
  Z : Int
deriving DecidableEq, Repr

/-- The outcomes `TxStateAccepted`, `TxStateRejected`, `TxStateDeferred` of a click. -/
inductive TxState
  | TxStateAccepted
  | TxStateRejected
  | TxStateDeferred
deriving DecidableEq, Repr

/-- The type `gamerules.Click`, with the fields that `handlePacketWindowClick` sets. -/
structure Click where
  SlotId : Int
  Cursor : Slot
  RightClick : Bool
  ShiftClick : Bool
  TxId : Int
  ExpectedSlot : Slot
deriving DecidableEq, Repr

/-- The type `proto.PacketWindowClick`, with the fields that `handlePacketWindowClick`
reads. -/
structure PacketWindowClick where
  WindowId : Int
  Slot : Int
  RightClick : Bool
  Shift : Bool
  TxId : Int
  ExpectedSlot : Chunkymonkey.Slot
deriving DecidableEq, Repr

/-- The type `proto.PacketPlayerBlockInteract`, with the fields that
`handlePacketPlayerBlockInteract` reads. -/
structure PacketPlayerBlockInteract where
  Block : BlockXyz
  Face : Int
deriving DecidableEq, Repr

/-- A window behind the interface `window.IWindow`, known by the value of its method
`WindowId()`. -/
structure Window where
  WindowId : Int
deriving DecidableEq, Repr

/-- A `*RemoteInventory`, known by the block it was created for. -/
structure RemoteInventory where
  block : BlockXyz
deriving DecidableEq, Repr

/-- A call made on a window, on a remote inventory or on the inventory of the player when
a window is closed: `window.Finalize(sendClosePacket)`, `remoteInv.Close()`,
`player.inventory.Resubscribe()`. -/
inductive WindowCall
  | Finalize (window : Window) (sendClosePacket : Bool)
  | Close (remoteInv : RemoteInventory)
  | Resubscribe
deriving DecidableEq, Repr

/-- A request made to a shard client: `ReqInteractBlock(held, block, face)` on the client
`shard`. -/
inductive ShardRequest
  | ReqInteractBlock (shard : Nat) (held : Slot) (block : BlockXyz) (face : Int)
deriving DecidableEq, Repr

/-- The field `ping` of `Player`. -/
structure Ping where
  running : Bool
  id : Int
  timestampNs : Int
  timer : Option Int
deriving DecidableEq, Repr

end Player

/-- The part of `type Player struct` used by the embedded methods, with the records of
the calls made on the collaborators; a packet is the list of the messages written to
its buffer, `[]` for a `nil` packet. -/
structure Player where
  name : String
  ping : Player.Ping
  txQueue : List (List Player.Message)
  stopPlayer : List Bool
  gameBroadcast : List (List Player.Message)
  spawnComplete : Bool
  position : Player.AbsXyz
  height : Nat
  chunkSubsMove : List Player.AbsXyz
  cursor : Slot
  curWindow : Option Player.Window
  remoteInv : Option Player.RemoteInventory
  shardRequests : List Player.ShardRequest
  nextWindowId : Int
  windowCalls : List Player.WindowCall
deriving DecidableEq, Repr

namespace Player

/-- The constant `PingTimeoutNs = 1e9 * 60`. -/
def PingTimeoutNs : Int := 1000000000 * 60

/-- The constant `PingIntervalNs = 1e9 * 20`. -/
def PingIntervalNs : Int := 1000000000 * 20

/-- The constant `StanceNormal = AbsCoord(1.62)`, as the bit pattern of the `float64`. -/
def StanceNormal : Nat := 0x3FF9EB851EB851EC

/-- The function `NewPlayer`, for the fields of the embedding, the spawn block
`(0, 0, 0)` and the value `1` of the constant `WindowIdFreeMin`: the position is that of
the spawn block, the height is `StanceNormal`, the next window id is `WindowIdFreeMin`,
the ping state, the cursor and the references to a window and to a remote inventory are
zero values, and the channels and the records of calls are empty.  `NewPlayerWith` is
the same function for any value of the constant. -/
def NewPlayer (name : String) : Player :=
  { name := name
    ping := { running := false, id := 0, timestampNs := 0, timer := none }
    txQueue := []
    stopPlayer := []
    gameBroadcast := []
    spawnComplete := false
    position := { X := 0, Y := 0, Z := 0 }
    height := StanceNormal
    chunkSubsMove := []
    cursor := { ItemTypeId := 0, Count := 0, Data := 0 }
    curWindow := none
    remoteInv := none
    shardRequests := []
    nextWindowId := 1
    windowCalls := [] }

/-- The function `NewPlayer` for the value `WindowIdFreeMin` of the constant of that
name in package `chunkymonkey/types`: `nextWindowId: WindowIdFreeMin`. -/
def NewPlayerWith (WindowIdFreeMin : Int) (name : String) : Player :=
  { NewPlayer name with nextWindowId := WindowIdFreeMin }

/-- The method `Stop`: a send on `stopPlayer`, of capacity 1, that is dropped when the
channel is full. -/
def Stop (player : Player) : Player :=
  if player.stopPlayer.length < 1 then
    { player with stopPlayer := player.stopPlayer ++ [true] }
  else player

/-- The method `TransmitPacket`. -/
def TransmitPacket (player : Player) (packet : List Message) : Player :=
  if packet = [] then player
  else { player with txQueue := player.txQueue ++ [packet] }

/-- The method `pingNew`; `rand31` is the value of `rand.Int31()` and `now` the value of
`time.Nanoseconds()`. -/
def pingNew (player : Player) (rand31 now : Int) : Player :=
  if player.ping.running then player
  else
    let player := { player with ping := { player.ping with running := true } }
    let player := { player with ping := { player.ping with id := rand31 } }
    let player :=
      if player.ping.id = 0 then { player with ping := { player.ping with id := 1 } }
      else player
    let player := { player with ping := { player.ping with timestampNs := now } }
    let buf := [Message.keepAlive player.ping.id]
    let player := TransmitPacket player buf
    { player with ping := { player.ping with timer := some PingTimeoutNs } }

/-- The method `pingTimeout`. -/
def pingTimeout (player : Player) (rand31 now : Int) : Player :=
  if player.ping.running then Stop player
  else pingNew player rand31 now

/-- The part of `pingReceived` after the checks, from `// Received valid keep-alive.`;
`now` is the value of `time.Nanoseconds()`. -/
def pingReceivedValid (player : Player) (now : Int) : Player :=
  let latencyNs := Proto.toSigned 64 (now - player.ping.timestampNs)
  let player :=
    if latencyNs ≥ 0 ∧ latencyNs < PingTimeoutNs then
      let buf :=
        [Message.userListItem player.name true
          (Proto.toSigned 16 (Int.tdiv latencyNs 1000000))]
      { player with gameBroadcast := player.gameBroadcast ++ [buf] }
    else player
  let player := { player with ping := { player.ping with running := false } }
  let player := { player with ping := { player.ping with id := 0 } }
  { player with ping := { player.ping with timer := some PingIntervalNs } }

/-- The method `pingReceived`; `playerPingNoCheck` is the value of the flag. -/
def pingReceived (playerPingNoCheck : Bool) (player : Player) (id now : Int) : Player :=
  if id = 0 then player
  else if playerPingNoCheck then
    if !player.ping.running then player
    else pingReceivedValid player now
  else
    if !player.ping.running then Stop player
    else if id ≠ player.ping.id then Stop player
    else pingReceivedValid player now

/-- The sequences of keep-alive calls on a player: one call of `pingNew`, `pingTimeout`
or `pingReceived`, with the values it takes from its environment. -/
inductive PingCall
  | pingNew (rand31 now : Int)
  | pingTimeout (rand31 now : Int)
  | pingReceived (playerPingNoCheck : Bool) (id now : Int)
deriving DecidableEq, Repr

/-- The state after one keep-alive call. -/
def pingCall (player : Player) : PingCall → Player
  | .pingNew rand31 now => pingNew player rand31 now
  | .pingTimeout rand31 now => pingTimeout player rand31 now
  | .pingReceived playerPingNoCheck id now => pingReceived playerPingNoCheck player id now

/-- The state after a sequence of keep-alive calls, made in order. -/
def pingCalls (player : Player) (calls : List PingCall) : Player :=
  calls.foldl pingCall player

/-- The method `handleMove`.  `IsWithinDistanceOf a b d` is the value of
`a.IsWithinDistanceOf(b, d)` and `subAbsCoord a b` the value of `a - b` on
coordinates. -/
def handleMove (IsWithinDistanceOf : AbsXyz → AbsXyz → Nat → Bool)
    (subAbsCoord : Nat → Nat → Nat) (player : Player) (position : AbsXyz)
    (stance : Nat) : Player :=
  if !player.spawnComplete then player
  else if !IsWithinDistanceOf player.position position 10 then player
  else
    let player := { player with position := position }
    let player := { player with height := subAbsCoord stance position.Y }
    { player with chunkSubsMove := player.chunkSubsMove ++ [position] }

/-- The method `handlePacketPlayerBlockInteract`.  `ShardClientForBlockXyz b` is the
shard client that `player.chunkSubs.ShardClientForBlockXyz(b)` returns, `none` when its
`ok` is `false`; `HeldItem` is the slot that `player.inventory.HeldItem()` returns. -/
def handlePacketPlayerBlockInteract (FaceMinValid FaceMaxValid : Int)
    (MaxInteractDistance : Nat) (MidPointToAbsXyz : BlockXyz → AbsXyz)
    (IsWithinDistanceOf : AbsXyz → AbsXyz → Nat → Bool)
    (ShardClientForBlockXyz : BlockXyz → Option Nat) (HeldItem : Slot)
    (player : Player) (pkt : PacketPlayerBlockInteract) : Player :=
  if pkt.Face < FaceMinValid ∨ pkt.Face > FaceMaxValid then player
  else
    let targetAbsPos := MidPointToAbsXyz pkt.Block
    if !IsWithinDistanceOf targetAbsPos player.position MaxInteractDistance then player
    else
      match ShardClientForBlockXyz pkt.Block with
      | some shardClient =>
        let held := HeldItem
        { player with
          shardRequests := player.shardRequests ++
            [ShardRequest.ReqInteractBlock shardClient held pkt.Block pkt.Face] }
      | none => player

/-- The method `Slot.SendUpdate` of `slot.go`: one call of `proto.WriteWindowSetSlot` on
the writer. -/
def SendUpdate (s : Slot) (writer : List Message) (windowId slotId : Int) : List Message :=
  writer ++ [Message.windowSetSlot windowId slotId s.ItemTypeId s.Count s.Data]

/-- The choice of `clickedWindow` at the start of `handlePacketWindowClick`: the method
`Click` of the window the packet names, `none` for `nil`.  `inventoryClick` is the method
`Click` of the player's inventory and `windowClick w` that of the window `w`: each gives
the outcome and the click as the call leaves it. -/
def clickedWindow (WindowIdInventory : Int) (inventoryClick : Click → TxState × Click)
    (windowClick : Window → Click → TxState × Click) (player : Player)
    (pkt : PacketWindowClick) : Option (Click → TxState × Click) :=
  if pkt.WindowId = WindowIdInventory then some inventoryClick
  else
    match player.curWindow with
    | some curWindow =>
      if curWindow.WindowId = pkt.WindowId then some (windowClick curWindow) else none
    | none => none

/-- The value `click` that `handlePacketWindowClick` builds from the packet and the
cursor, with its `ExpectedSlot` set from the packet. -/
def newClick (player : Player) (pkt : PacketWindowClick) : Click :=
  { SlotId := pkt.Slot
    Cursor := player.cursor
    RightClick := pkt.RightClick
    ShiftClick := pkt.Shift
    TxId := pkt.TxId
    ExpectedSlot := pkt.ExpectedSlot }

/-- The method `handlePacketWindowClick`. -/
def handlePacketWindowClick (WindowIdInventory WindowIdCursor SlotIdCursor : Int)
    (inventoryClick : Click → TxState × Click)
    (windowClick : Window → Click → TxState × Click)
    (player : Player) (pkt : PacketWindowClick) : Player :=
  let clickedWindow := clickedWindow WindowIdInventory inventoryClick windowClick player pkt
  let txState := TxState.TxStateRejected
  let click := newClick player pkt
  let (txState, click) :=
    match clickedWindow with
    | some clicked => clicked click
    | none => (txState, click)
  match txState with
  | .TxStateAccepted | .TxStateRejected =>
    let buf :=
      [Message.windowTransaction pkt.WindowId pkt.TxId
        (decide (txState = TxState.TxStateAccepted))]
    let player := { player with cursor := click.Cursor }
    let buf := SendUpdate player.cursor buf WindowIdCursor SlotIdCursor
    TransmitPacket player buf
  | .TxStateDeferred => player

/-- The method `inventoryTxState`.  `IsForBlock inv b` is the value of
`inv.IsForBlock(b)`. -/
def inventoryTxState (IsForBlock : RemoteInventory → BlockXyz → Bool) (player : Player)
    (block : BlockXyz) (txId : Int) (accepted : Bool) : Player :=
  match player.remoteInv, player.curWindow with
  | some remoteInv, some curWindow =>
    if !IsForBlock remoteInv block then player
    else
      let buf := [Message.windowTransaction curWindow.WindowId txId accepted]
      TransmitPacket player buf
  | _, _ => player

/-- The method `closeCurrentWindow`. -/
def closeCurrentWindow (player : Player) (sendClosePacket : Bool) : Player :=
  let player :=
    match player.curWindow with
    | some curWindow =>
      let player :=
        { player with
          windowCalls := player.windowCalls ++ [WindowCall.Finalize curWindow sendClosePacket] }
      { player with curWindow := none }
    | none => player
  let player :=
    match player.remoteInv with
    | some remoteInv =>
      let player :=
        { player with windowCalls := player.windowCalls ++ [WindowCall.Close remoteInv] }
      { player with remoteInv := none }
    | none => player
  { player with windowCalls := player.windowCalls ++ [WindowCall.Resubscribe] }

/-- The function `NewRemoteInventory(block, &player.chunkSubs, slots)`: the remote
inventory for the block. -/
def NewRemoteInventory (block : BlockXyz) (_slots : List Slot) : RemoteInventory :=
  { block := block }

/-- The method `inventorySubscribed`.  `NewWindow t id inv` is the window that
`player.inventory.NewWindow(t, id, inv)` returns, `none` for `nil`. -/
def inventorySubscribed (WindowIdFreeMin WindowIdFreeMax : Int)
    (NewWindow : Int → Int → RemoteInventory → Option Window)
    (player : Player) (block : BlockXyz) (invTypeId : Int) (slots : List Slot) : Player :=
  let player :=
    if player.remoteInv ≠ none then closeCurrentWindow player true else player
  let remoteInv := NewRemoteInventory block slots
  match NewWindow invTypeId player.nextWindowId remoteInv with
  | none => player
  | some window =>
    let player := { player with remoteInv := some remoteInv }
    let player := { player with curWindow := some window }
    let player :=
      if player.nextWindowId ≥ WindowIdFreeMax then
        { player with nextWindowId := WindowIdFreeMin }
      else { player with nextWindowId := player.nextWindowId + 1 }
    let buf := [Message.windowOpen window.WindowId]
    let buf := buf ++ [Message.windowItems window.WindowId]
    TransmitPacket player buf

/-- One call of `inventorySubscribed`, by its arguments. -/
structure Subscription where
  block : BlockXyz
  invTypeId : Int
  slots : List Slot
deriving DecidableEq, Repr

/-- The state after a sequence of calls of `inventorySubscribed`, made in order. -/
def inventorySubscribedCalls (WindowIdFreeMin WindowIdFreeMax : Int)
    (NewWindow : Int → Int → RemoteInventory → Option Window)
    (player : Player) (calls : List Subscription) : Player :=
  calls.foldl
    (fun player call =>
      inventorySubscribed WindowIdFreeMin WindowIdFreeMax NewWindow player call.block
        call.invTypeId call.slots)
    player

end Player

/-! ## Chunk: block index -/

namespace Chunk

/-- The constant `ChunkSizeH`: the size of a chunk along `x` and along `z`. -/
def ChunkSizeH : Int := 16

/-- The constant `ChunkSizeY`: the height of a chunk. -/
def ChunkSizeY : Int := 128

/-- The type `SubChunkXYZ` of the test: a location inside a chunk. -/
structure SubChunkXYZ where
  X : Int
  Y : Int
  Z : Int
deriving DecidableEq, Repr

/-- Modelled from the spec: the function `blockIndex` is defined in a file of package
`chunk` that is not part of the sources at hand, and the specification has no sentence
on it; the model follows the table of `TestblockIndex`, the only source that tells what
the function returns.  A location outside the chunk gives `(0, 0, false)`; a location
inside gives the index of its block in the column-major block array, the nibble shift
(`0` for an even index, `4` for an odd one) and `true`. -/
def blockIndex (subLoc : SubChunkXYZ) : Int × Nat × Bool :=
  if subLoc.X < 0 ∨ subLoc.Y < 0 ∨ subLoc.Z < 0 ∨ subLoc.X ≥ ChunkSizeH ∨
      subLoc.Y ≥ ChunkSizeY ∨ subLoc.Z ≥ ChunkSizeH then (0, 0, false)
  else
    let index := subLoc.Y + subLoc.Z * ChunkSizeY + subLoc.X * ChunkSizeY * ChunkSizeH
    let shift := if index % 2 = 0 then 0 else 4
    (index, shift, true)

/-- The type `Test` of `TestblockIndex`. -/
structure Test where
  input : SubChunkXYZ
  exp_index : Int
  exp_shift : Nat
  exp_ok : Bool
deriving DecidableEq, Repr

/-- The table `tests` of `TestblockIndex`. -/
def tests : List Test :=
  [ ⟨⟨0, 0, 0⟩, 0, 0, true⟩,
    ⟨⟨0, 1, 0⟩, 1, 4, true⟩,
    ⟨⟨0, 2, 0⟩, 2, 0, true⟩,
    ⟨⟨0, 3, 0⟩, 3, 4, true⟩,
    ⟨⟨0, 127, 0⟩, 127, 4, true⟩,
    ⟨⟨0, 0, 1⟩, 128, 0, true⟩,
    ⟨⟨0, 127, 1⟩, 255, 4, true⟩,
    ⟨⟨0, 0, 2⟩, 256, 0, true⟩,
    ⟨⟨16, 0, 0⟩, 0, 0, false⟩,
    ⟨⟨0, 128, 0⟩, 0, 0, false⟩,
    ⟨⟨0, 0, 16⟩, 0, 0, false⟩ ]

/-- The body of the loop of `TestblockIndex`: the row passes when no error is
reported. -/
def testPasses (r : Test) : Bool :=
  let (index, shift, ok) := blockIndex r.input
  !(decide (r.exp_index ≠ index) || decide (r.exp_shift ≠ shift) || decide (r.exp_ok ≠ ok))

end Chunk

/-! ## Record: recording and replaying received data

Conventions of the embedding:

* The log is the list of its bytes: the recorder appends to it and its writes succeed;
  the replayer reads from its front.  A read of the log returns all the bytes asked for
  when the log still has them, the bytes that are left when it has fewer, and `io.EOF`
  when bytes are asked for and none is left.
* The writer of the replayer is the list of the slices given to its `Write`, in order;
  its writes succeed.
* The wrapped reader of the recorder is outside the embedding: what its `Read` returned
  (the bytes `b[:n]` and the error) is an argument of the embedded `Read`, as is the
  clock reading.  The wait of `Replay` for the recorded delay is real time and is not
  represented; it takes no part in what is written.
-/

namespace Record

/-- The type `header`. -/
structure header where
  Timestamp : Int
  Length : Int
deriving DecidableEq, Repr

/-- The call `binary.Write(log, binary.BigEndian, &header)`: the time stamp on 8 bytes
and the length on 4 bytes, most significant byte first. -/
def binaryWriteHeader (log : List Nat) (h : header) : List Nat :=
  log ++ Proto.bePut 8 (Proto.toUnsigned 64 h.Timestamp) ++
    Proto.bePut 4 (Proto.toUnsigned 32 h.Length)

/-- The call `binary.Read(log, binary.BigEndian, &header)`: one `io.ReadFull` of 12 bytes
and their decoding; the error, the header and the log afterwards. -/
def binaryReadHeader (log : List Nat) : Option Proto.Error × header × List Nat :=
  match Proto.readFull log 12 with
  | (some err, _, log) => (some err, { Timestamp := 0, Length := 0 }, log)
  | (none, buf, log) =>
    (none,
      { Timestamp := Proto.toSigned 64 (Proto.beUint (buf.take 8))
        Length := Proto.toSigned 32 (Proto.beUint (buf.drop 8)) },
      log)

/-- The type `ReaderRecorder`, without the wrapped reader. -/
structure ReaderRecorder where
  log : List Nat
  lastTimestamp : Int
deriving DecidableEq, Repr

/-- The function `NewReaderRecorder` on an empty log; `now` is the value of
`time.Now()`. -/
def NewReaderRecorder (now : Int) : ReaderRecorder :=
  { log := [], lastTimestamp := now }

/-- What one call of `reader.Read(b)` on the wrapped reader returned: the bytes `b[:n]`,
whose number is `n`, and the error; with the value `now` of `time.Now()` in the call of
`ReaderRecorder.Read`. -/
structure ReadResult where
  data : List Nat
  err : Option Proto.Error
  now : Int
deriving DecidableEq, Repr

/-- The method `ReaderRecorder.Read`: the recorder afterwards and the returned
`(n, err)`. -/
def ReaderRecorder.Read (recorder : ReaderRecorder) (r : ReadResult) :
    ReaderRecorder × Nat × Option Proto.Error :=
  let n := r.data.length
  let err := r.err
  if err = none then
    let now := r.now
    let log :=
      binaryWriteHeader recorder.log
        { Timestamp := now - recorder.lastTimestamp
          Length := Proto.toSigned 32 n }
    let log := log ++ r.data
    ({ log := log, lastTimestamp := now }, n, err)
  else (recorder, n, err)

/-- The recorder after a sequence of calls of `Read`, made in order. -/
def ReaderRecorder.Reads (recorder : ReaderRecorder) (rs : List ReadResult) :
    ReaderRecorder :=
  rs.foldl (fun recorder r => (recorder.Read r).1) recorder

/-- The type `ReaderReplayer`: the slices written to the writer so far, and the log. -/
structure ReaderReplayer where
  writer : List (List Nat)
  log : List Nat
deriving DecidableEq, Repr

/-- How a run of `Replay` ends: it returns, it panics on a slice expression, or the
embedding runs out of fuel. -/
inductive Outcome
  | returned
  | panicked
  | outOfFuel
deriving DecidableEq, Repr

/-- The call `replayer.log.Read(p)` for a slice `p` of `n` bytes: the error, the bytes
read and the log afterwards. -/
def logRead (log : List Nat) (n : Nat) : Option Proto.Error × List Nat × List Nat :=
  if n = 0 then (none, [], log)
  else if log.length = 0 then (some Proto.Error.EOF, [], log)
  else (none, log.take n, log.drop n)

/-- The loop of `Replay`, for at most `fuel` iterations; `buf` is the buffer. -/
def replayLoop : Nat → List Nat → ReaderReplayer → Outcome × ReaderReplayer
  | 0, _, replayer => (Outcome.outOfFuel, replayer)
  | fuel + 1, buf, replayer =>
    match binaryReadHeader replayer.log with
    | (some _, _, log) => (Outcome.returned, { replayer with log := log })
    | (none, header, log) =>
      let replayer := { replayer with log := log }
      let buf :=
        if header.Length > Proto.toSigned 32 buf.length then
          List.replicate header.Length.toNat 0
        else buf
      if header.Length < 0 ∨ header.Length > buf.length then
        (Outcome.panicked, replayer)
      else
        match logRead replayer.log header.Length.toNat with
        | (some _, _, log) => (Outcome.returned, { replayer with log := log })
        | (none, bytes, log) =>
          let replayer := { replayer with log := log }
          let buf := bytes ++ buf.drop bytes.length
          let replayer :=
            { replayer with writer := replayer.writer ++ [buf.take header.Length.toNat] }
          replayLoop fuel buf replayer

/-- The method `Replay`: the loop from a buffer of 4096 bytes.  Every iteration that goes
on takes the 12 bytes of a header from the log, so the loop ends within
`log.length / 12 + 1` iterations. -/
def ReaderReplayer.Replay (replayer : ReaderReplayer) : Outcome × ReaderReplayer :=
  replayLoop (replayer.log.length / 12 + 1) (List.replicate 4096 0) replayer

/-- The records that a sequence of results of the wrapped reader leaves in the log: for
each result without error, the delay on 8 bytes (an `int64`, in two's complement), the
length of the data on 4 bytes, and the data; all big-endian. -/
def records : Int → List ReadResult → List Nat
  | _, [] => []
  | last, r :: rs =>
    if r.err = none then
      Proto.bePut 8 (Proto.toUnsigned 64 (r.now - last)) ++
        Proto.bePut 4 r.data.length ++ r.data ++ records r.now rs
    else records last rs

/-- The data chunks of the results without error, in order. -/
def chunks (rs : List ReadResult) : List (List Nat) :=
  (rs.filter fun r => r.err = none).map fun r => r.data

end Record

namespace Slot

/-! ## Slot operations: auxiliary facts -/

theorem nat_xor_cancel (a b : Nat) : a ^^^ (b ^^^ a) = b := by
  rw [Nat.xor_comm b a, Nat.xor_cancel_left]

theorem nat_xor_cancel2 (a b : Nat) : (a ^^^ b) ^^^ a = b := by
  rw [Nat.xor_comm a b, Nat.xor_cancel_right]

theorem int_xor_cancel_right (x y : Int) : Int.xor y (Int.xor x y) = x := by
  cases x <;> cases y <;> simp [Int.xor, nat_xor_cancel]

theorem int_xor_cancel_left (x y : Int) : Int.xor (Int.xor x y) x = y := by
  cases x <;> cases y <;> simp [Int.xor, nat_xor_cancel2]

theorem xorSwap_eq (x y : Int) : xorSwap x y = (y, x, decide (x ≠ y)) := by
  unfold xorSwap
  by_cases h : x = y
  · simp [h]
  · simp [h, int_xor_cancel_right, int_xor_cancel_left]

theorem shiftRight_one (n : Int) : Int.shiftRight n 1 = n / 2 := by
  have := Int.shiftRight_eq_div_pow n 1
  simpa using this

theorem land_one_of_nonneg (n : Int) (h : 0 ≤ n) : Int.land n 1 = n % 2 := by
  obtain ⟨m, rfl⟩ := Int.eq_ofNat_of_zero_le h
  show Int.land (Int.ofNat m) (Int.ofNat 1) = _
  simp [Int.land, Nat.and_one_is_mod]

theorem Swap_eq (a b : Slot) :
    Swap a b =
      (b, a, decide (a.ItemTypeId ≠ b.ItemTypeId ∨ a.Count ≠ b.Count ∨ a.Data ≠ b.Data)) := by
  cases a; cases b
  simp only [Swap, xorSwap_eq]
  simp [Bool.decide_or, Bool.or_assoc]

theorem Split_eq (ItemTypeIdNull : Int) (dst src : Slot) (hn : 0 < dst.Count)
    (hs : src.Count = 0) :
    Split ItemTypeIdNull dst src =
      (if dst.Count / 2 = 0 then empty ItemTypeIdNull
        else ⟨dst.ItemTypeId, dst.Count / 2, dst.Data⟩,
       ⟨dst.ItemTypeId, dst.Count - dst.Count / 2, dst.Data⟩, true) := by
  have h0 : dst.Count ≠ 0 := by omega
  have hodd : dst.Count / 2 + dst.Count % 2 = dst.Count - dst.Count / 2 := by omega
  simp [Split, h0, hs, shiftRight_one, land_one_of_nonneg _ (le_of_lt hn), hodd, empty]
  split_ifs <;> simp [*]

/-- The exact result of `Add` on slots that satisfy the invariant. -/
theorem Add_eq (ItemTypeIdNull : Int) (dst src : Slot) (hd : Inv ItemTypeIdNull dst)
    (hs : Inv ItemTypeIdNull src) :
    Add ItemTypeIdNull dst src =
      if dst.ItemTypeId ≠ ItemTypeIdNull ∧
          (dst.ItemTypeId ≠ src.ItemTypeId ∨ dst.Data ≠ src.Data) then (dst, src, false)
      else
        (if min src.Count (SlotCountMax - dst.Count) = 0 then dst
          else ⟨src.ItemTypeId, dst.Count + min src.Count (SlotCountMax - dst.Count), src.Data⟩,
         if src.Count - min src.Count (SlotCountMax - dst.Count) = 0 then empty ItemTypeIdNull
          else ⟨src.ItemTypeId, src.Count - min src.Count (SlotCountMax - dst.Count), src.Data⟩,
         decide (min src.Count (SlotCountMax - dst.Count) ≠ 0)) := by
  obtain ⟨dt, dc, dd⟩ := dst
  obtain ⟨st, sc, sd⟩ := src
  simp only [Inv, SlotCountMax] at hd hs
  obtain ⟨hd1, hd2, hd3⟩ := hd
  obtain ⟨hs1, hs2, hs3⟩ := hs
  simp only [Add, addTransfer, setCount, SlotCountMax, empty]
  by_cases hfull : dc ≥ 64
  · have hm : min sc (64 - dc) = 0 := by omega
    simp only [hm, hfull, if_true]
    split_ifs <;> simp_all
  · by_cases hov : dc + sc > 64
    · have hm : min sc (64 - dc) = 64 - dc := by omega
      have h1 : (64 : Int) - dc ≠ 0 := by omega
      have h2 : dc + (64 - dc) ≠ 0 := by omega
      have h3 : sc - (64 - dc) ≠ 0 := by omega
      simp only [hm, hfull, hov, if_true, if_false, h1, h2, h3, ne_eq, not_false_eq_true,
        decide_True]
      split_ifs <;> first | rfl | (exfalso; tauto)
    · have hm : min sc (64 - dc) = sc := by omega
      simp only [hm, hfull, hov, if_false]
      by_cases hsc : sc = 0
      · obtain ⟨h4, h5⟩ := hs1.1 hsc
        subst hsc h4 h5
        by_cases ht : dt = st
        · subst ht
          simp
        · simp [ht]
      · have h2 : dc + sc ≠ 0 := by omega
        simp only [hsc, h2, ne_eq, not_false_eq_true, if_true, if_false, sub_self, decide_True]
        split_ifs <;> first | rfl | (exfalso; tauto)

/-- The exact result of `AddOne`, with the guards of the source gathered in one
condition. -/
theorem AddOne_eq (ItemTypeIdNull : Int) (dst src : Slot) :
    AddOne ItemTypeIdNull dst src =
      if src.Count ≠ 0 ∧ dst.Count < SlotCountMax ∧ src.Data = dst.Data ∧
          (dst.ItemTypeId = src.ItemTypeId ∨ dst.ItemTypeId = ItemTypeIdNull) then
        (⟨src.ItemTypeId, dst.Count + 1, src.Data⟩,
         if src.Count - 1 = 0 then empty ItemTypeIdNull
          else ⟨src.ItemTypeId, src.Count - 1, src.Data⟩, true)
      else (dst, src, false) := by
  obtain ⟨dt, dc, dd⟩ := dst
  obtain ⟨st, sc, sd⟩ := src
  simp only [AddOne, SlotCountMax, empty]
  by_cases h1 : sc = 0
  · simp [h1]
  by_cases h2 : dc ≥ 64
  · have : ¬ dc < 64 := by omega
    simp [h2, this]
  have h2' : dc < 64 := by omega
  by_cases h3 : sd = dd
  · by_cases h4 : dt = st
    · simp [h1, h2, h2', h3, h4]
      split_ifs <;> simp [*]
    · by_cases h5 : dt = ItemTypeIdNull
      · simp [h1, h2, h2', h3, h4, h5]
        split_ifs <;> simp [*]
      · simp [h1, h2, h2', h3, h4, h5]
  · simp [h1, h2, h3]

/-- Every slot operation keeps the invariant of both slots. -/
theorem Inv_Add (ItemTypeIdNull : Int) (a b : Slot) (ha : Inv ItemTypeIdNull a)
    (hb : Inv ItemTypeIdNull b) :
    Inv ItemTypeIdNull (Add ItemTypeIdNull a b).1 ∧
      Inv ItemTypeIdNull (Add ItemTypeIdNull a b).2.1 := by
  rw [Add_eq ItemTypeIdNull a b ha hb]
  obtain ⟨at_, ac, ad⟩ := a
  obtain ⟨bt, bc, bd⟩ := b
  simp only [Inv, SlotCountMax] at ha hb ⊢
  obtain ⟨ha1, ha2, ha3⟩ := ha
  obtain ⟨hb1, hb2, hb3⟩ := hb
  simp only [empty]
  split_ifs with h1 h2 h3 h3
  all_goals simp only []
  all_goals refine ⟨⟨⟨?_, ?_⟩, ?_, ?_⟩, ⟨?_, ?_⟩, ?_, ?_⟩
  all_goals first | omega | tauto

theorem Inv_Split (ItemTypeIdNull : Int) (a b : Slot) (ha : Inv ItemTypeIdNull a)
    (hb : Inv ItemTypeIdNull b) :
    Inv ItemTypeIdNull (Split ItemTypeIdNull a b).1 ∧
      Inv ItemTypeIdNull (Split ItemTypeIdNull a b).2.1 := by
  by_cases h : 0 < a.Count ∧ b.Count = 0
  · rw [Split_eq ItemTypeIdNull a b h.1 h.2]
    obtain ⟨at_, ac, ad⟩ := a
    simp only [Inv, SlotCountMax, empty] at ha h ⊢
    obtain ⟨ha1, ha2, ha3⟩ := ha
    split_ifs with h1
    all_goals simp only []
    all_goals refine ⟨⟨⟨?_, ?_⟩, ?_, ?_⟩, ⟨?_, ?_⟩, ?_, ?_⟩
    all_goals first | omega | tauto
  · have h' : a.Count = 0 ∨ b.Count ≠ 0 := by
      have := ha.2.1
      by_cases h0 : a.Count = 0
      · exact Or.inl h0
      · refine Or.inr fun hb0 => h ⟨by omega, hb0⟩
    simp [Split, h', ha, hb]

theorem Inv_AddOne (ItemTypeIdNull : Int) (a b : Slot) (ha : Inv ItemTypeIdNull a)
    (hb : Inv ItemTypeIdNull b) :
    Inv ItemTypeIdNull (AddOne ItemTypeIdNull a b).1 ∧
      Inv ItemTypeIdNull (AddOne ItemTypeIdNull a b).2.1 := by
  rw [AddOne_eq]
  by_cases h1 : b.Count ≠ 0 ∧ a.Count < SlotCountMax ∧ b.Data = a.Data ∧
      (a.ItemTypeId = b.ItemTypeId ∨ a.ItemTypeId = ItemTypeIdNull)
  · rw [if_pos h1]
    obtain ⟨at_, ac, ad⟩ := a
    obtain ⟨bt, bc, bd⟩ := b
    simp only [Inv, SlotCountMax, empty] at ha hb h1 ⊢
    obtain ⟨ha1, ha2, ha3⟩ := ha
    obtain ⟨hb1, hb2, hb3⟩ := hb
    by_cases h2 : bc - 1 = 0
    · simp only [if_pos h2]
      refine ⟨⟨⟨?_, ?_⟩, ?_, ?_⟩, ⟨?_, ?_⟩, ?_, ?_⟩
      all_goals first | omega | tauto
    · simp only [if_neg h2]
      refine ⟨⟨⟨?_, ?_⟩, ?_, ?_⟩, ⟨?_, ?_⟩, ?_, ?_⟩
      all_goals omega
  · rw [if_neg h1]
    exact ⟨ha, hb⟩

/-! ## Slot operations: main results -/

/-- C3, as stated, fails: the slots `{Null,5,3}` and `{T,5,0}` both satisfy the slot
invariant, both are non-empty and they differ in `ItemTypeId` and in `Data`, yet `Add`
does not leave them unchanged: it moves all five units and returns `true`, because
the source decides whether the destination is occupied by `ItemTypeId != Null`. -/
theorem Add_changes_incompatible_null_typed_stack :
    Inv (-1) ⟨-1, 5, 3⟩ ∧ Inv (-1) ⟨1, 5, 0⟩ ∧
      (⟨-1, 5, 3⟩ : Slot).Count ≠ 0 ∧ (⟨1, 5, 0⟩ : Slot).Count ≠ 0 ∧
      (⟨-1, 5, 3⟩ : Slot).ItemTypeId ≠ (⟨1, 5, 0⟩ : Slot).ItemTypeId ∧
      (⟨-1, 5, 3⟩ : Slot).Data ≠ (⟨1, 5, 0⟩ : Slot).Data ∧
      Add (-1) ⟨-1, 5, 3⟩ ⟨1, 5, 0⟩ = (⟨1, 10, 0⟩, ⟨-1, 0, 0⟩, true) ∧
      Add (-1) ⟨-1, 5, 3⟩ ⟨1, 5, 0⟩ ≠ (⟨-1, 5, 3⟩, ⟨1, 5, 0⟩, false) := by
  decide

/-- C3, amended: for slots `dst`, `src` that satisfy the slot invariant, `dst.Add(src)`
changes nothing and returns `false` when `dst.ItemTypeId` is not `Null` and the slots
differ in `ItemTypeId` or `Data`.  Otherwise, with
`t = min(src.Count, SlotCountMax - dst.Count)`: `dst.Count` grows by `t` and
`src.Count` shrinks by `t`; `dst` takes the type and data of `src` if `dst` was empty
(and, more generally, whenever `t ≠ 0`, while `dst` is untouched when `t = 0`); `src`
becomes the canonical empty slot if its count reaches `0` and otherwise keeps its type
and data; the returned flag is `t ≠ 0`.  In particular `{T,3,0}.Add({T,5,0})` gives
`{T,8,0}`, the empty slot and `true`. -/
theorem Add_spec (ItemTypeIdNull : Int) (dst src : Slot) (hd : Inv ItemTypeIdNull dst)
    (hs : Inv ItemTypeIdNull src) :
    (dst.ItemTypeId ≠ ItemTypeIdNull ∧
        (dst.ItemTypeId ≠ src.ItemTypeId ∨ dst.Data ≠ src.Data) →
      Add ItemTypeIdNull dst src = (dst, src, false)) ∧
    (¬ (dst.ItemTypeId ≠ ItemTypeIdNull ∧
        (dst.ItemTypeId ≠ src.ItemTypeId ∨ dst.Data ≠ src.Data)) →
      (Add ItemTypeIdNull dst src).1.Count
          = dst.Count + min src.Count (SlotCountMax - dst.Count) ∧
        (Add ItemTypeIdNull dst src).2.1.Count
          = src.Count - min src.Count (SlotCountMax - dst.Count) ∧
        (dst.Count = 0 →
          (Add ItemTypeIdNull dst src).1.ItemTypeId = src.ItemTypeId ∧
            (Add ItemTypeIdNull dst src).1.Data = src.Data) ∧
        (min src.Count (SlotCountMax - dst.Count) ≠ 0 →
          (Add ItemTypeIdNull dst src).1.ItemTypeId = src.ItemTypeId ∧
            (Add ItemTypeIdNull dst src).1.Data = src.Data) ∧
        (min src.Count (SlotCountMax - dst.Count) = 0 →
          (Add ItemTypeIdNull dst src).1 = dst) ∧
        (src.Count - min src.Count (SlotCountMax - dst.Count) = 0 →
          (Add ItemTypeIdNull dst src).2.1 = empty ItemTypeIdNull) ∧
        (src.Count - min src.Count (SlotCountMax - dst.Count) ≠ 0 →
          (Add ItemTypeIdNull dst src).2.1.ItemTypeId = src.ItemTypeId ∧
            (Add ItemTypeIdNull dst src).2.1.Data = src.Data) ∧
        (Add ItemTypeIdNull dst src).2.2
          = decide (min src.Count (SlotCountMax - dst.Count) ≠ 0)) ∧
    (∀ T : Int, Add ItemTypeIdNull ⟨T, 3, 0⟩ ⟨T, 5, 0⟩
        = (⟨T, 8, 0⟩, empty ItemTypeIdNull, true)) := by
  refine ⟨?_, ?_, ?_⟩
  · intro h
    rw [Add_eq ItemTypeIdNull dst src hd hs, if_pos h]
  · intro h
    rw [Add_eq ItemTypeIdNull dst src hd hs, if_neg h]
    have hd0 := hd.1
    have hs0 := hs.1
    have hd1 := hd.2.1
    have hd2 := hd.2.2
    have hs1 := hs.2.1
    simp only [SlotCountMax] at hd2 ⊢
    obtain ⟨dt, dc, dd⟩ := dst
    obtain ⟨st, sc, sd⟩ := src
    simp only [empty] at *
    have hmin : min sc (64 - dc) = 0 ↔ (sc = 0 ∨ dc = 64) := by omega
    by_cases ht : min sc (64 - dc) = 0
    · have hsc : sc = 0 ∨ dc = 64 := hmin.1 ht
      simp only [ht, if_true, sub_zero, add_zero]
      by_cases h0 : sc = 0
      · obtain ⟨h1, h2⟩ := hs0.1 h0
        have h3 : dc = 0 → dt = st ∧ dd = sd := fun hdc =>
          ⟨((hd0.1 hdc).1).trans h1.symm, ((hd0.1 hdc).2).trans h2.symm⟩
        simp [h0]
        exact h3
      · have h3 : dc ≠ 0 := by omega
        simp [h0, h3]
    · simp only [ht, if_false]
      by_cases h0 : sc - min sc (64 - dc) = 0
      · simp [h0, ht]
      · simp [h0, ht]
  · intro T
    by_cases hT : T = ItemTypeIdNull <;> simp [Add, addTransfer, setCount, SlotCountMax, empty, hT]

/-- C3, amended, at the input of the claim: `{T,3,0}.Add({T,5,0})`. -/
theorem Add_spec_witness :
    Inv (-1) ⟨1, 3, 0⟩ ∧ Inv (-1) ⟨1, 5, 0⟩ ∧
      Add (-1) ⟨1, 3, 0⟩ ⟨1, 5, 0⟩ = (⟨1, 8, 0⟩, empty (-1), true) :=
  ⟨by decide, by decide, (Add_spec (-1) ⟨1, 3, 0⟩ ⟨1, 5, 0⟩ (by decide) (by decide)).2.2 1⟩

/-- C4: the failing input of `AddOne`.  The destination is the canonical empty slot and
the source holds five units with `Data = 3`: the call changes neither slot and returns
`false`, where the claim asks for one unit to be moved. -/
theorem AddOne_refuses_empty_destination :
    Inv (-1) (empty (-1)) ∧ Inv (-1) ⟨1, 5, 3⟩ ∧
      AddOne (-1) (empty (-1)) ⟨1, 5, 3⟩ = (empty (-1), ⟨1, 5, 3⟩, false) := by
  decide

/-- C5: for all slots `dst`, `src`: if `dst.Count = n > 0` and `src.Count = 0`, then
`dst.Split(src)` leaves `src = {dst's type, n - n/2, dst's data}` and `dst` with count
`n/2`, keeping its type and data, or canonically zeroed when `n/2 = 0`, which happens
exactly for `n = 1`, and returns `true`; if `dst.Count = 0` or `src.Count ≠ 0`, neither
slot changes and it returns `false`. -/
theorem Split_spec (ItemTypeIdNull : Int) (dst src : Slot) :
    (0 < dst.Count → src.Count = 0 →
      Split ItemTypeIdNull dst src =
        (if dst.Count / 2 = 0 then empty ItemTypeIdNull
          else ⟨dst.ItemTypeId, dst.Count / 2, dst.Data⟩,
         ⟨dst.ItemTypeId, dst.Count - dst.Count / 2, dst.Data⟩, true) ∧
        (dst.Count / 2 = 0 ↔ dst.Count = 1)) ∧
    (dst.Count = 0 ∨ src.Count ≠ 0 → Split ItemTypeIdNull dst src = (dst, src, false)) := by
  refine ⟨?_, ?_⟩
  · intro hn hs
    exact ⟨Split_eq ItemTypeIdNull dst src hn hs, by omega⟩
  · intro h
    simp [Split, h]

/-- C5, at the input of the claim: `{T,7,0}` split into an empty slot gives `{T,3,0}` and
`{T,4,0}`; and a split into an occupied slot does nothing. -/
theorem Split_spec_witness :
    (0 : Int) < (⟨1, 7, 0⟩ : Slot).Count ∧ (⟨-1, 0, 0⟩ : Slot).Count = 0 ∧
      Split (-1) ⟨1, 7, 0⟩ ⟨-1, 0, 0⟩ = (⟨1, 3, 0⟩, ⟨1, 4, 0⟩, true) ∧
      Split (-1) ⟨1, 7, 0⟩ ⟨2, 1, 0⟩ = (⟨1, 7, 0⟩, ⟨2, 1, 0⟩, false) :=
  ⟨by decide, by decide,
    ((Split_spec (-1) ⟨1, 7, 0⟩ ⟨-1, 0, 0⟩).1 (by decide) (by decide)).1,
    (Split_spec (-1) ⟨1, 7, 0⟩ ⟨2, 1, 0⟩).2 (by decide)⟩

/-- C6: for all slots `a`, `b`, with no precondition on any field: after `a.Swap(b)` the
first slot holds the previous contents of `b`, the second the previous contents of `a`,
and the returned flag is `true` exactly when one of the three fields differed. -/
theorem Swap_spec (a b : Slot) :
    (Swap a b).1 = b ∧ (Swap a b).2.1 = a ∧
      ((Swap a b).2.2 = true ↔
        (a.ItemTypeId ≠ b.ItemTypeId ∨ a.Count ≠ b.Count ∨ a.Data ≠ b.Data)) := by
  rw [Swap_eq]
  simp

/-- C7: `Init` establishes the slot invariant (`Count == 0` iff the slot is canonically
zeroed, and `0 <= Count <= SlotCountMax`), and whenever the invariant holds of both
argument slots before `Add`, `Swap`, `Split` or `AddOne`, it holds of both slots
afterwards. -/
theorem Inv_established_and_preserved (ItemTypeIdNull : Int) (a b : Slot)
    (ha : Inv ItemTypeIdNull a) (hb : Inv ItemTypeIdNull b) :
    (∀ s : Slot, Inv ItemTypeIdNull (Init ItemTypeIdNull s)) ∧
    (Inv ItemTypeIdNull (Add ItemTypeIdNull a b).1 ∧
      Inv ItemTypeIdNull (Add ItemTypeIdNull a b).2.1) ∧
    (Inv ItemTypeIdNull (Swap a b).1 ∧ Inv ItemTypeIdNull (Swap a b).2.1) ∧
    (Inv ItemTypeIdNull (Split ItemTypeIdNull a b).1 ∧
      Inv ItemTypeIdNull (Split ItemTypeIdNull a b).2.1) ∧
    (Inv ItemTypeIdNull (AddOne ItemTypeIdNull a b).1 ∧
      Inv ItemTypeIdNull (AddOne ItemTypeIdNull a b).2.1) := by
  refine ⟨?_, Inv_Add ItemTypeIdNull a b ha hb, ?_, Inv_Split ItemTypeIdNull a b ha hb,
    Inv_AddOne ItemTypeIdNull a b ha hb⟩
  · intro s
    simp [Inv, Init, SlotCountMax]
  · rw [Swap_eq]
    exact ⟨hb, ha⟩

/-- C7 at two concrete slots that satisfy the invariant. -/
theorem Inv_established_and_preserved_witness :
    Inv (-1) ⟨1, 60, 2⟩ ∧ Inv (-1) ⟨1, 9, 2⟩ ∧
      Inv (-1) (Add (-1) ⟨1, 60, 2⟩ ⟨1, 9, 2⟩).1 ∧
      Inv (-1) (Add (-1) ⟨1, 60, 2⟩ ⟨1, 9, 2⟩).2.1 :=
  ⟨by decide, by decide,
    (Inv_established_and_preserved (-1) ⟨1, 60, 2⟩ ⟨1, 9, 2⟩ (by decide) (by decide)).2.1⟩

/-- C8: for `Add`, `Swap`, `Split` and `AddOne` on slots that satisfy the slot invariant,
the returned flag is `true` if and only if one of the two slots differs after the call
from what it was before. -/
theorem changed_flag_exact (ItemTypeIdNull : Int) (a b : Slot)
    (ha : Inv ItemTypeIdNull a) (hb : Inv ItemTypeIdNull b) :
    ((Add ItemTypeIdNull a b).2.2 = true ↔
      ((Add ItemTypeIdNull a b).1 ≠ a ∨ (Add ItemTypeIdNull a b).2.1 ≠ b)) ∧
    ((Swap a b).2.2 = true ↔ ((Swap a b).1 ≠ a ∨ (Swap a b).2.1 ≠ b)) ∧
    ((Split ItemTypeIdNull a b).2.2 = true ↔
      ((Split ItemTypeIdNull a b).1 ≠ a ∨ (Split ItemTypeIdNull a b).2.1 ≠ b)) ∧
    ((AddOne ItemTypeIdNull a b).2.2 = true ↔
      ((AddOne ItemTypeIdNull a b).1 ≠ a ∨ (AddOne ItemTypeIdNull a b).2.1 ≠ b)) := by
  have ha0 := ha.1
  have hb0 := hb.1
  have ha1 := ha.2.1
  have ha2 := ha.2.2
  have hb1 := hb.2.1
  refine ⟨?_, ?_, ?_, ?_⟩
  · rw [Add_eq ItemTypeIdNull a b ha hb]
    obtain ⟨at_, ac, ad⟩ := a
    obtain ⟨bt, bc, bd⟩ := b
    simp only [SlotCountMax, empty] at *
    by_cases h : at_ ≠ ItemTypeIdNull ∧ (at_ ≠ bt ∨ ad ≠ bd)
    · simp [if_pos h]
    · rw [if_neg h]
      by_cases ht : min bc (64 - ac) = 0
      · simp only [ht, if_true, sub_zero]
        by_cases h0 : bc = 0
        · obtain ⟨h1, h2⟩ := hb0.1 h0
          simp [h0, h1, h2]
        · simp [h0]
      · have hne : ac + min bc (64 - ac) ≠ ac := by omega
        simp [ht, hne]
  · rw [Swap_eq]
    obtain ⟨at_, ac, ad⟩ := a
    obtain ⟨bt, bc, bd⟩ := b
    simp only [decide_eq_true_eq, ne_eq, Slot.mk.injEq, not_and]
    constructor
    · intro h
      left
      rintro rfl rfl rfl
      simp at h
    · intro h
      by_contra hc
      simp only [not_or, not_not] at hc
      obtain ⟨h1, h2, h3⟩ := hc
      subst h1 h2 h3
      simp at h
  · by_cases h : 0 < a.Count ∧ b.Count = 0
    · rw [Split_eq ItemTypeIdNull a b h.1 h.2]
      obtain ⟨at_, ac, ad⟩ := a
      obtain ⟨bt, bc, bd⟩ := b
      simp only [] at h
      have hne : ac - ac / 2 ≠ bc := by omega
      simp [hne]
    · have h' : a.Count = 0 ∨ b.Count ≠ 0 := by
        by_cases h0 : a.Count = 0
        · exact Or.inl h0
        · exact Or.inr fun hb0 => h ⟨by omega, hb0⟩
      simp [Split, h']
  · rw [AddOne_eq]
    by_cases h1 : b.Count ≠ 0 ∧ a.Count < SlotCountMax ∧ b.Data = a.Data ∧
        (a.ItemTypeId = b.ItemTypeId ∨ a.ItemTypeId = ItemTypeIdNull)
    · rw [if_pos h1]
      obtain ⟨at_, ac, ad⟩ := a
      simp
    · rw [if_neg h1]
      simp

/-- C8 at two concrete slots: `Add` moves four units and reports a change. -/
theorem changed_flag_exact_witness :
    Inv (-1) ⟨1, 60, 2⟩ ∧ Inv (-1) ⟨1, 9, 2⟩ ∧
      ((Add (-1) ⟨1, 60, 2⟩ ⟨1, 9, 2⟩).2.2 = true ↔
        ((Add (-1) ⟨1, 60, 2⟩ ⟨1, 9, 2⟩).1 ≠ ⟨1, 60, 2⟩ ∨
          (Add (-1) ⟨1, 60, 2⟩ ⟨1, 9, 2⟩).2.1 ≠ ⟨1, 9, 2⟩)) :=
  ⟨by decide, by decide,
    (changed_flag_exact (-1) ⟨1, 60, 2⟩ ⟨1, 9, 2⟩ (by decide) (by decide)).1⟩

/-- C9: the failing input of the decomposition.  From an empty destination and a source
`{T,5,3}`, five calls of `AddOne` leave both slots as they were and all return `false`,
while one call of `Add` moves the five units and returns `true`. -/
theorem AddOne_repeated_differs_from_Add :
    Inv (-1) (empty (-1)) ∧ Inv (-1) ⟨1, 5, 3⟩ ∧
      AddOneTimes (-1) 5 (empty (-1)) ⟨1, 5, 3⟩ = (empty (-1), ⟨1, 5, 3⟩, false) ∧
      Add (-1) (empty (-1)) ⟨1, 5, 3⟩ = (⟨1, 5, 3⟩, empty (-1), true) := by
  decide

/-! ## Slot operations: conservation -/

/-- C30: no slot operation creates or destroys items: for slots that satisfy the slot
invariant (counts in `0 .. 64` included), the sum of the two counts is the same after
`Add`, `Swap`, `Split` and `AddOne` as before the call. -/
theorem count_conserved (ItemTypeIdNull : Int) (dst src : Slot)
    (hd : Inv ItemTypeIdNull dst) (hs : Inv ItemTypeIdNull src) :
    (Add ItemTypeIdNull dst src).1.Count + (Add ItemTypeIdNull dst src).2.1.Count
        = dst.Count + src.Count ∧
      (Swap dst src).1.Count + (Swap dst src).2.1.Count = dst.Count + src.Count ∧
      (Split ItemTypeIdNull dst src).1.Count + (Split ItemTypeIdNull dst src).2.1.Count
        = dst.Count + src.Count ∧
      (AddOne ItemTypeIdNull dst src).1.Count + (AddOne ItemTypeIdNull dst src).2.1.Count
        = dst.Count + src.Count := by
  have hd1 := hd.2.1
  have hd2 := hd.2.2
  have hs1 := hs.2.1
  simp only [SlotCountMax] at hd2
  refine ⟨?_, ?_, ?_, ?_⟩
  · rw [Add_eq ItemTypeIdNull dst src hd hs]
    simp only [SlotCountMax, empty]
    by_cases h : dst.ItemTypeId ≠ ItemTypeIdNull ∧
        (dst.ItemTypeId ≠ src.ItemTypeId ∨ dst.Data ≠ src.Data)
    · rw [if_pos h]
    · rw [if_neg h]
      by_cases ht : min src.Count (64 - dst.Count) = 0
      · simp only [ht, if_true, sub_zero]
        by_cases h0 : src.Count = 0
        · simp only [h0, if_true, add_zero]
        · simp only [h0, if_false]
      · by_cases h0 : src.Count - min src.Count (64 - dst.Count) = 0
        · simp only [ht, h0, if_true, if_false]
          omega
        · simp only [ht, h0, if_false]
          omega
  · rw [Swap_eq]
    simp only []
    omega
  · by_cases h : 0 < dst.Count ∧ src.Count = 0
    · rw [Split_eq ItemTypeIdNull dst src h.1 h.2]
      by_cases h2 : dst.Count / 2 = 0
      · simp only [h2, if_true, empty]
        omega
      · simp only [h2, if_false]
        omega
    · have h' : dst.Count = 0 ∨ src.Count ≠ 0 := by
        by_cases h0 : dst.Count = 0
        · exact Or.inl h0
        · exact Or.inr fun hb0 => h ⟨by omega, hb0⟩
      simp [Split, h']
  · rw [AddOne_eq]
    by_cases h1 : src.Count ≠ 0 ∧ dst.Count < SlotCountMax ∧ src.Data = dst.Data ∧
        (dst.ItemTypeId = src.ItemTypeId ∨ dst.ItemTypeId = ItemTypeIdNull)
    · rw [if_pos h1]
      by_cases h2 : src.Count - 1 = 0
      · simp only [h2, if_true, empty]
        omega
      · simp only [h2, if_false]
        omega
    · rw [if_neg h1]

/-- C30 at two concrete slots: `Add` moves four of nine units into a stack of 60. -/
theorem count_conserved_witness :
    Inv (-1) ⟨1, 60, 2⟩ ∧ Inv (-1) ⟨1, 9, 2⟩ ∧
      (Add (-1) ⟨1, 60, 2⟩ ⟨1, 9, 2⟩).1.Count + (Add (-1) ⟨1, 60, 2⟩ ⟨1, 9, 2⟩).2.1.Count
        = 60 + 9 :=
  ⟨by decide, by decide,
    (count_conserved (-1) ⟨1, 60, 2⟩ ⟨1, 9, 2⟩ (by decide) (by decide)).1⟩

end Slot

namespace Proto

/-! ## Packet serializer: auxiliary facts -/

theorem beUint_append_singleton (l : List Nat) (b : Nat) :
    beUint (l ++ [b]) = beUint l * 256 + b := by
  simp [beUint, List.foldl_append]

theorem length_bePut (n v : Nat) : (bePut n v).length = n := by
  induction n generalizing v with
  | zero => rfl
  | succ n ih => simp [bePut, ih]

theorem beUint_bePut (n v : Nat) : beUint (bePut n v) = v % 256 ^ n := by
  induction n generalizing v with
  | zero => simp [bePut, beUint, Nat.mod_one]
  | succ n ih =>
    rw [bePut, beUint_append_singleton, ih, pow_succ, Nat.mul_comm (256 ^ n) 256,
      Nat.mod_mul]
    omega

theorem readFull_append (bs rest : List Nat) (n : Nat) (h : bs.length = n) :
    readFull (bs ++ rest) n = (none, bs, rest) := by
  subst h
  simp [readFull]

theorem readFull_bePut (n v : Nat) (rest : List Nat) :
    readFull (bePut n v ++ rest) n = (none, bePut n v, rest) :=
  readFull_append _ _ _ (length_bePut n v)

theorem toSigned_toUnsigned_8 (x : Int) (h1 : -2 ^ 7 ≤ x) (h2 : x < 2 ^ 7) :
    toSigned 8 ((toUnsigned 8 x % 256 ^ 1 : Nat) : Int) = x := by
  simp only [toSigned, toUnsigned]
  norm_num at h1 h2 ⊢
  omega

theorem toSigned_toUnsigned_16 (x : Int) (h1 : -2 ^ 15 ≤ x) (h2 : x < 2 ^ 15) :
    toSigned 16 ((toUnsigned 16 x % 256 ^ 2 : Nat) : Int) = x := by
  simp only [toSigned, toUnsigned]
  norm_num at h1 h2 ⊢
  omega

theorem toSigned_toUnsigned_32 (x : Int) (h1 : -2 ^ 31 ≤ x) (h2 : x < 2 ^ 31) :
    toSigned 32 ((toUnsigned 32 x % 256 ^ 4 : Nat) : Int) = x := by
  simp only [toSigned, toUnsigned]
  norm_num at h1 h2 ⊢
  omega

theorem toSigned_toUnsigned_64 (x : Int) (h1 : -2 ^ 63 ≤ x) (h2 : x < 2 ^ 63) :
    toSigned 64 ((toUnsigned 64 x % 256 ^ 8 : Nat) : Int) = x := by
  simp only [toSigned, toUnsigned]
  norm_num at h1 h2 ⊢
  omega

theorem toUnsigned_toUnsigned_8 (x : Nat) (h : x < 2 ^ 8) :
    toUnsigned 8 ((toUnsigned 8 (x : Int) % 256 ^ 1 : Nat) : Int) = x := by
  simp only [toUnsigned]
  norm_num at h ⊢
  omega

theorem toUnsigned_toUnsigned_16 (x : Nat) (h : x < 2 ^ 16) :
    toUnsigned 16 ((toUnsigned 16 (x : Int) % 256 ^ 2 : Nat) : Int) = x := by
  simp only [toUnsigned]
  norm_num at h ⊢
  omega

theorem toUnsigned_toUnsigned_32 (x : Nat) (h : x < 2 ^ 32) :
    toUnsigned 32 ((toUnsigned 32 (x : Int) % 256 ^ 4 : Nat) : Int) = x := by
  simp only [toUnsigned]
  norm_num at h ⊢
  omega

theorem toUnsigned_mod_64 (x : Nat) (h : x < 2 ^ 64) :
    toUnsigned 64 ((x % 256 ^ 8 : Nat) : Int) = x := by
  simp only [toUnsigned]
  norm_num at h ⊢
  omega

mutual

/-- Writing after a prefix is writing after nothing, behind the prefix. -/
theorem writeData_behind : ∀ (v : Value) (w : List Nat),
    writeData w v = ((writeData [] v).1, w ++ (writeData [] v).2)
  | .struct fields, w => by
    simp only [writeData]
    exact writeFields_behind fields w
  | .bool _, w => by simp [writeData]
  | .int8 _, w => by simp [writeData]
  | .int16 _, w => by simp [writeData]
  | .int32 _, w => by simp [writeData]
  | .int64 _, w => by simp [writeData]
  | .uint8 _, w => by simp [writeData]
  | .uint16 _, w => by simp [writeData]
  | .uint32 _, w => by simp [writeData]
  | .uint64 _, w => by simp [writeData]
  | .float32 _, w => by simp [writeData]
  | .float64 _, w => by simp [writeData]
  | .string s, w => by
    simp only [writeData]
    split_ifs <;> simp [binaryWrite]
  | .other _, w => by simp [writeData]

theorem writeFields_behind : ∀ (fields : List Value) (w : List Nat),
    writeFields w fields = ((writeFields [] fields).1, w ++ (writeFields [] fields).2)
  | [], w => by simp [writeFields]
  | field :: rest, w => by
    have h1 := writeData_behind field w
    have h2 := fun w' => writeFields_behind rest w'
    cases hf : writeData [] field with
    | mk e b =>
      rw [hf] at h1
      cases e with
      | some err => simp [writeFields, h1, hf]
      | none =>
        simp only [writeFields, h1, hf]
        rw [h2 (w ++ b), h2 b]
        simp

end

mutual

/-- Reading back what `writeData` wrote for a record of `bool` and fixed-width integer
fields gives the record back and leaves what follows in the reader. -/
theorem readData_writeData : ∀ (v dst : Value) (rest : List Nat),
    isFixedInt v = true → sameType dst v = true →
      (writeData [] v).1 = none ∧
        readData ((writeData [] v).2 ++ rest) dst = (none, v, rest)
  | .struct fields, dst, rest, hv, ht => by
    cases dst <;> simp only [sameType, Bool.false_eq_true] at ht
    rename_i gs
    simp only [isFixedInt] at hv
    have h := readFields_writeFields fields gs rest hv ht
    simp only [writeData, readData, h.1, h.2, and_self]
  | .bool b, dst, rest, hv, ht => by
    cases dst <;> simp only [sameType, Bool.false_eq_true] at ht
    cases b <;> simp [writeData, readData, readFull_bePut, beUint_bePut]
  | .int8 x, dst, rest, hv, ht => by
    cases dst <;> simp only [sameType, Bool.false_eq_true] at ht
    simp only [isFixedInt, decide_eq_true_eq] at hv
    simp [writeData, readData, readFull_bePut, beUint_bePut]
    exact toSigned_toUnsigned_8 x hv.1 hv.2
  | .int16 x, dst, rest, hv, ht => by
    cases dst <;> simp only [sameType, Bool.false_eq_true] at ht
    simp only [isFixedInt, decide_eq_true_eq] at hv
    simp [writeData, readData, readFull_bePut, beUint_bePut]
    exact toSigned_toUnsigned_16 x hv.1 hv.2
  | .int32 x, dst, rest, hv, ht => by
    cases dst <;> simp only [sameType, Bool.false_eq_true] at ht
    simp only [isFixedInt, decide_eq_true_eq] at hv
    simp [writeData, readData, readFull_bePut, beUint_bePut]
    exact toSigned_toUnsigned_32 x hv.1 hv.2
  | .int64 x, dst, rest, hv, ht => by
    cases dst <;> simp only [sameType, Bool.false_eq_true] at ht
    simp only [isFixedInt, decide_eq_true_eq] at hv
    simp [writeData, readData, readFull_bePut, beUint_bePut]
    exact toSigned_toUnsigned_64 x hv.1 hv.2
  | .uint8 x, dst, rest, hv, ht => by
    cases dst <;> simp only [sameType, Bool.false_eq_true] at ht
    simp only [isFixedInt, decide_eq_true_eq] at hv
    simp [writeData, readData, readFull_bePut, beUint_bePut]
    exact toUnsigned_toUnsigned_8 x hv
  | .uint16 x, dst, rest, hv, ht => by
    cases dst <;> simp only [sameType, Bool.false_eq_true] at ht
    simp only [isFixedInt, decide_eq_true_eq] at hv
    simp [writeData, readData, readFull_bePut, beUint_bePut]
    exact toUnsigned_toUnsigned_16 x hv
  | .uint32 x, dst, rest, hv, ht => by
    cases dst <;> simp only [sameType, Bool.false_eq_true] at ht
    simp only [isFixedInt, decide_eq_true_eq] at hv
    simp [writeData, readData, readFull_bePut, beUint_bePut]
    exact toUnsigned_toUnsigned_32 x hv
  | .uint64 x, dst, rest, hv, ht => by
    cases dst <;> simp only [sameType, Bool.false_eq_true] at ht
    simp only [isFixedInt, decide_eq_true_eq] at hv
    simp [writeData, readData, readFull_bePut, beUint_bePut]
    exact toUnsigned_mod_64 x hv
  | .float32 _, _, _, hv, _ => by simp [isFixedInt] at hv
  | .float64 _, _, _, hv, _ => by simp [isFixedInt] at hv
  | .string _, _, _, hv, _ => by simp [isFixedInt] at hv
  | .other _, _, _, hv, _ => by simp [isFixedInt] at hv

theorem readFields_writeFields : ∀ (fields gs : List Value) (rest : List Nat),
    allFixedInt fields = true → sameTypes gs fields = true →
      (writeFields [] fields).1 = none ∧
        readFields ((writeFields [] fields).2 ++ rest) gs = (none, fields, rest)
  | [], gs, rest, _, ht => by
    cases gs <;> simp only [sameTypes, Bool.false_eq_true] at ht
    simp [writeFields, readFields]
  | field :: fields, gs, rest, hv, ht => by
    cases gs with
    | nil => simp [sameTypes] at ht
    | cons g gs =>
      simp only [sameTypes, allFixedInt, Bool.and_eq_true] at ht hv
      have hw := writeFields_behind fields
      cases hf : writeData [] field with
      | mk e b =>
        have h1 := readData_writeData field g ((writeFields [] fields).2 ++ rest) hv.1 ht.1
        have h2 := readFields_writeFields fields gs rest hv.2 ht.2
        rw [hf] at h1
        simp only at h1
        obtain ⟨he, h1⟩ := h1
        subst he
        simp only [writeFields, hf]
        rw [hw b]
        simp only [h2.1, List.append_assoc, readFields, h1, h2.2, and_self]

end

/-! ## Packet serializer: main results -/

/-- C1: for every record whose fields, at any nesting depth, are `bool`, `int8`, `int16`,
`int32`, `int64`, `uint8`, `uint16`, `uint32` or `uint64` values, `WritePacket` into an
empty buffer succeeds (given the record or a pointer to it), and `ReadPacket` of the
written bytes into a record of the same type succeeds, consumes every byte and yields
the original field values. -/
theorem WritePacket_ReadPacket_roundtrip (v dst : Value) (hv : isFixedInt v = true)
    (ht : sameType dst v = true) :
    (WritePacket [] (.val v)).1 = none ∧
      WritePacket [] (.ptr v) = WritePacket [] (.val v) ∧
      ReadPacket (WritePacket [] (.val v)).2 (.ptr dst) = (none, .ptr v, []) := by
  have h := readData_writeData v dst [] hv ht
  simp only [List.append_nil] at h
  refine ⟨h.1, rfl, ?_⟩
  simp only [WritePacket, ReadPacket, h.2]

/-- C1 at a record that holds the boundary values of every width, with a nested
record. -/
theorem WritePacket_ReadPacket_roundtrip_witness :
    isFixedInt (.struct [.int8 (-128), .int8 (-1), .int16 (-32768), .int32 (-2147483648),
        .int64 (-9223372036854775808), .uint8 255, .uint16 65535, .uint32 4294967295,
        .struct [.uint64 18446744073709551615, .bool true, .int64 9223372036854775807]])
      = true ∧
    sameType (.struct [.int8 0, .int8 0, .int16 0, .int32 0, .int64 0, .uint8 0, .uint16 0,
        .uint32 0, .struct [.uint64 0, .bool false, .int64 0]])
      (.struct [.int8 (-128), .int8 (-1), .int16 (-32768), .int32 (-2147483648),
        .int64 (-9223372036854775808), .uint8 255, .uint16 65535, .uint32 4294967295,
        .struct [.uint64 18446744073709551615, .bool true, .int64 9223372036854775807]])
      = true ∧
    ReadPacket
        (WritePacket [] (.val (.struct [.int8 (-128), .int8 (-1), .int16 (-32768),
          .int32 (-2147483648), .int64 (-9223372036854775808), .uint8 255, .uint16 65535,
          .uint32 4294967295,
          .struct [.uint64 18446744073709551615, .bool true,
            .int64 9223372036854775807]]))).2
        (.ptr (.struct [.int8 0, .int8 0, .int16 0, .int32 0, .int64 0, .uint8 0, .uint16 0,
          .uint32 0, .struct [.uint64 0, .bool false, .int64 0]]))
      = (none,
          .ptr (.struct [.int8 (-128), .int8 (-1), .int16 (-32768), .int32 (-2147483648),
            .int64 (-9223372036854775808), .uint8 255, .uint16 65535, .uint32 4294967295,
            .struct [.uint64 18446744073709551615, .bool true,
              .int64 9223372036854775807]]),
          []) :=
  ⟨by decide, by decide,
    (WritePacket_ReadPacket_roundtrip _ _ (by decide) (by decide)).2.2⟩

/-- C2: the failing input of the string case.  The string `"é"` (one code point,
`U+00E9`, two bytes in the host representation) is accepted by `WritePacket`, which
writes the length prefix `00 02` followed by the single code unit `00 E9`: the prefix
is the number of bytes of the string, not the number of code units written.
`ReadPacket` on these bytes asks for two code units and fails with
`io.ErrUnexpectedEOF`, leaving the destination string as it was. -/
theorem WritePacket_string_prefix_is_byte_length :
    WritePacket [] (.val (.string [0xE9])) = (none, [0, 2, 0, 0xE9]) ∧
      (decodeUtf8 [0xE9]).length = 1 ∧
      ReadPacket [0, 2, 0, 0xE9] (.ptr (.string []))
        = (some Error.ErrUnexpectedEOF, .ptr (.string []), []) :=
  ⟨by decide, by decide, rfl⟩

/-- C10: `ReadPacket` returns `ErrorPacketNotPtr` when the destination is not a pointer
and `ErrorPacketNil` when it is a nil pointer; in both cases the reader and the argument
are left as they were. -/
theorem ReadPacket_rejects_non_pointer_and_nil (reader : List Nat) (v : Value) :
    ReadPacket reader (.val v) = (some Error.ErrorPacketNotPtr, .val v, reader) ∧
      ReadPacket reader .nilPtr = (some Error.ErrorPacketNil, .nilPtr, reader) :=
  ⟨rfl, rfl⟩

/-! ## Packet serializer: wire form, errors -/

theorem bePut_eq_bigEndian (n x : Nat) : bePut n x = bigEndian n x := by
  induction n generalizing x with
  | zero => rfl
  | succ n ih =>
    rw [bePut, ih]
    simp only [bigEndian, List.range_succ, List.map_append, List.map_cons, List.map_nil,
      Nat.add_sub_cancel, Nat.sub_self, pow_zero, Nat.div_one]
    congr 1
    apply List.map_congr_left
    intro i hi
    have hi' : i < n := List.mem_range.mp hi
    have h1 : n - i = (n - 1 - i) + 1 := by omega
    rw [Nat.div_div_eq_div_mul, h1, pow_succ, Nat.mul_comm]

theorem length_bigEndian (w x : Nat) : (bigEndian w x).length = w := by
  simp [bigEndian]

theorem readFull_none (reader : List Nat) (n : Nat) (h : (readFull reader n).1 = none) :
    n ≤ reader.length ∧ readFull reader n = (none, reader.take n, reader.drop n) := by
  unfold readFull at h ⊢
  by_cases hn : n ≤ reader.length
  · simp [hn]
  · rw [if_neg hn] at h
    split_ifs at h

mutual

/-- On a record of `bool` and fixed-width integer fields `writeData` appends the wire
form of the specification. -/
theorem writeData_wireForm : ∀ (v : Value) (w : List Nat), isFixedInt v = true →
    writeData w v = (none, w ++ wireForm v)
  | .struct fields, w, hv => by
    simp only [isFixedInt] at hv
    simp only [writeData, wireForm]
    exact writeFields_wireForms fields w hv
  | .bool b, w, _ => by cases b <;> simp [writeData, wireForm, bePut_eq_bigEndian]
  | .int8 _, w, _ => by simp [writeData, wireForm, bePut_eq_bigEndian]
  | .int16 _, w, _ => by simp [writeData, wireForm, bePut_eq_bigEndian]
  | .int32 _, w, _ => by simp [writeData, wireForm, bePut_eq_bigEndian]
  | .int64 _, w, _ => by simp [writeData, wireForm, bePut_eq_bigEndian]
  | .uint8 x, w, hv => by
    simp only [isFixedInt, decide_eq_true_eq] at hv
    have h : toUnsigned 8 (x : Int) = x := by
      simp only [toUnsigned]; norm_num at hv ⊢; omega
    simp [writeData, wireForm, bePut_eq_bigEndian, h]
  | .uint16 x, w, hv => by
    simp only [isFixedInt, decide_eq_true_eq] at hv
    have h : toUnsigned 16 (x : Int) = x := by
      simp only [toUnsigned]; norm_num at hv ⊢; omega
    simp [writeData, wireForm, bePut_eq_bigEndian, h]
  | .uint32 x, w, hv => by
    simp only [isFixedInt, decide_eq_true_eq] at hv
    have h : toUnsigned 32 (x : Int) = x := by
      simp only [toUnsigned]; norm_num at hv ⊢; omega
    simp [writeData, wireForm, bePut_eq_bigEndian, h]
  | .uint64 _, w, _ => by simp [writeData, wireForm, bePut_eq_bigEndian]
  | .float32 _, _, hv => by simp [isFixedInt] at hv
  | .float64 _, _, hv => by simp [isFixedInt] at hv
  | .string _, _, hv => by simp [isFixedInt] at hv
  | .other _, _, hv => by simp [isFixedInt] at hv

theorem writeFields_wireForms : ∀ (fields : List Value) (w : List Nat),
    allFixedInt fields = true → writeFields w fields = (none, w ++ wireForms fields)
  | [], w, _ => by simp [writeFields, wireForms]
  | field :: rest, w, hv => by
    simp only [allFixedInt, Bool.and_eq_true] at hv
    simp only [writeFields, writeData_wireForm field w hv.1, wireForms,
      writeFields_wireForms rest _ hv.2, List.append_assoc]

end

mutual

/-- The wire form has the wire width as its length. -/
theorem length_wireForm : ∀ v : Value, (wireForm v).length = wireWidth v
  | .struct fields => by
    simp only [wireForm, wireWidth]
    exact length_wireForms fields
  | .bool _ => by simp [wireForm, wireWidth, length_bigEndian]
  | .int8 _ => by simp [wireForm, wireWidth, length_bigEndian]
  | .int16 _ => by simp [wireForm, wireWidth, length_bigEndian]
  | .int32 _ => by simp [wireForm, wireWidth, length_bigEndian]
  | .int64 _ => by simp [wireForm, wireWidth, length_bigEndian]
  | .uint8 _ => by simp [wireForm, wireWidth, length_bigEndian]
  | .uint16 _ => by simp [wireForm, wireWidth, length_bigEndian]
  | .uint32 _ => by simp [wireForm, wireWidth, length_bigEndian]
  | .uint64 _ => by simp [wireForm, wireWidth, length_bigEndian]
  | .float32 _ => by simp [wireForm, wireWidth]
  | .float64 _ => by simp [wireForm, wireWidth]
  | .string _ => by simp [wireForm, wireWidth]
  | .other _ => by simp [wireForm, wireWidth]

theorem length_wireForms : ∀ fields : List Value,
    (wireForms fields).length = wireWidths fields
  | [] => by simp [wireForms, wireWidths]
  | field :: rest => by
    simp [wireForms, wireWidths, length_wireForm field, length_wireForms rest]

end

mutual

/-- A successful `readData` into a record of `bool` and fixed-width integer fields takes
exactly the wire width of the record from the reader. -/
theorem readData_consumes : ∀ (v dst : Value) (reader : List Nat),
    isFixedInt v = true → sameType dst v = true → (readData reader dst).1 = none →
      (readData reader dst).2.2 = reader.drop (wireWidth v) ∧ wireWidth v ≤ reader.length
  | .struct fields, dst, reader, hv, ht, h => by
    cases dst <;> simp only [sameType, Bool.false_eq_true] at ht
    rename_i gs
    simp only [isFixedInt] at hv
    simp only [readData] at h ⊢
    exact readFields_consumes fields gs reader hv ht h
  | .bool _, dst, reader, _, ht, h => by
    cases dst <;> simp only [sameType, Bool.false_eq_true] at ht
    by_cases hn : 1 ≤ reader.length
    · simp [readData, readFull, hn, wireWidth]
    · exfalso
      simp only [readData, readFull, if_neg hn] at h
      split_ifs at h
  | .int8 _, dst, reader, _, ht, h => by
    cases dst <;> simp only [sameType, Bool.false_eq_true] at ht
    by_cases hn : 1 ≤ reader.length
    · simp [readData, readFull, hn, wireWidth]
    · exfalso
      simp only [readData, readFull, if_neg hn] at h
      split_ifs at h
  | .int16 _, dst, reader, _, ht, h => by
    cases dst <;> simp only [sameType, Bool.false_eq_true] at ht
    by_cases hn : 2 ≤ reader.length
    · simp [readData, readFull, hn, wireWidth]
    · exfalso
      simp only [readData, readFull, if_neg hn] at h
      split_ifs at h
  | .int32 _, dst, reader, _, ht, h => by
    cases dst <;> simp only [sameType, Bool.false_eq_true] at ht
    by_cases hn : 4 ≤ reader.length
    · simp [readData, readFull, hn, wireWidth]
    · exfalso
      simp only [readData, readFull, if_neg hn] at h
      split_ifs at h
  | .int64 _, dst, reader, _, ht, h => by
    cases dst <;> simp only [sameType, Bool.false_eq_true] at ht
    by_cases hn : 8 ≤ reader.length
    · simp [readData, readFull, hn, wireWidth]
    · exfalso
      simp only [readData, readFull, if_neg hn] at h
      split_ifs at h
  | .uint8 _, dst, reader, _, ht, h => by
    cases dst <;> simp only [sameType, Bool.false_eq_true] at ht
    by_cases hn : 1 ≤ reader.length
    · simp [readData, readFull, hn, wireWidth]
    · exfalso
      simp only [readData, readFull, if_neg hn] at h
      split_ifs at h
  | .uint16 _, dst, reader, _, ht, h => by
    cases dst <;> simp only [sameType, Bool.false_eq_true] at ht
    by_cases hn : 2 ≤ reader.length
    · simp [readData, readFull, hn, wireWidth]
    · exfalso
      simp only [readData, readFull, if_neg hn] at h
      split_ifs at h
  | .uint32 _, dst, reader, _, ht, h => by
    cases dst <;> simp only [sameType, Bool.false_eq_true] at ht
    by_cases hn : 4 ≤ reader.length
    · simp [readData, readFull, hn, wireWidth]
    · exfalso
      simp only [readData, readFull, if_neg hn] at h
      split_ifs at h
  | .uint64 _, dst, reader, _, ht, h => by
    cases dst <;> simp only [sameType, Bool.false_eq_true] at ht
    by_cases hn : 8 ≤ reader.length
    · simp [readData, readFull, hn, wireWidth]
    · exfalso
      simp only [readData, readFull, if_neg hn] at h
      split_ifs at h
  | .float32 _, _, _, hv, _, _ => by simp [isFixedInt] at hv
  | .float64 _, _, _, hv, _, _ => by simp [isFixedInt] at hv
  | .string _, _, _, hv, _, _ => by simp [isFixedInt] at hv
  | .other _, _, _, hv, _, _ => by simp [isFixedInt] at hv

theorem readFields_consumes : ∀ (fields gs : List Value) (reader : List Nat),
    allFixedInt fields = true → sameTypes gs fields = true →
      (readFields reader gs).1 = none →
      (readFields reader gs).2.2 = reader.drop (wireWidths fields) ∧
        wireWidths fields ≤ reader.length
  | [], gs, reader, _, ht, _ => by
    cases gs <;> simp only [sameTypes, Bool.false_eq_true] at ht
    simp [readFields, wireWidths]
  | field :: rest, gs, reader, hv, ht, h => by
    cases gs with
    | nil => simp [sameTypes] at ht
    | cons g gs =>
      simp only [sameTypes, allFixedInt, Bool.and_eq_true] at ht hv
      have h1 := readData_consumes field g reader hv.1 ht.1
      simp only [readFields] at h ⊢
      cases hg : readData reader g with
      | mk e p =>
        obtain ⟨g', reader'⟩ := p
        rw [hg] at h h1
        cases e with
        | some err => simp at h
        | none =>
          simp only at h h1 ⊢
          obtain ⟨h1a, h1b⟩ := h1 trivial
          subst h1a
          have h2 := readFields_consumes rest gs (reader.drop (wireWidth field)) hv.2 ht.2 h
          simp only [wireWidths, h2.1, List.drop_drop, List.length_drop] at h2 ⊢
          exact ⟨trivial, by omega⟩

end

/-- A failed `readData` on a field that is not a nested record leaves the field as it
was. -/
theorem readData_error_keeps_field (v : Value) (reader : List Nat)
    (hs : isStruct v = false) (h : (readData reader v).1 ≠ none) :
    (readData reader v).2.1 = v := by
  cases v with
  | struct fields => simp [isStruct] at hs
  | other typ => simp [readData]
  | string s =>
    simp only [readData] at h ⊢
    rcases hr : readFull reader 2 with ⟨e, buf, r⟩
    rw [hr] at h
    cases e with
    | some err => rfl
    | none =>
      simp only at h ⊢
      split_ifs with hneg
      · rfl
      · rw [if_neg hneg] at h
        rcases hb : binaryRead r (toSigned 16 (beUint buf)).toNat with ⟨e2, cps, r2⟩
        rw [hb] at h
        cases e2 with
        | some err => rfl
        | none => simp at h
  | bool b =>
    simp only [readData] at h ⊢
    rcases hr : readFull reader 1 with ⟨e, buf, r⟩
    rw [hr] at h
    cases e with
    | some err => rfl
    | none => simp at h
  | int8 x =>
    simp only [readData] at h ⊢
    rcases hr : readFull reader 1 with ⟨e, buf, r⟩
    rw [hr] at h
    cases e with
    | some err => rfl
    | none => simp at h
  | int16 x =>
    simp only [readData] at h ⊢
    rcases hr : readFull reader 2 with ⟨e, buf, r⟩
    rw [hr] at h
    cases e with
    | some err => rfl
    | none => simp at h
  | int32 x =>
    simp only [readData] at h ⊢
    rcases hr : readFull reader 4 with ⟨e, buf, r⟩
    rw [hr] at h
    cases e with
    | some err => rfl
    | none => simp at h
  | int64 x =>
    simp only [readData] at h ⊢
    rcases hr : readFull reader 8 with ⟨e, buf, r⟩
    rw [hr] at h
    cases e with
    | some err => rfl
    | none => simp at h
  | uint8 x =>
    simp only [readData] at h ⊢
    rcases hr : readFull reader 1 with ⟨e, buf, r⟩
    rw [hr] at h
    cases e with
    | some err => rfl
    | none => simp at h
  | uint16 x =>
    simp only [readData] at h ⊢
    rcases hr : readFull reader 2 with ⟨e, buf, r⟩
    rw [hr] at h
    cases e with
    | some err => rfl
    | none => simp at h
  | uint32 x =>
    simp only [readData] at h ⊢
    rcases hr : readFull reader 4 with ⟨e, buf, r⟩
    rw [hr] at h
    cases e with
    | some err => rfl
    | none => simp at h
  | uint64 x =>
    simp only [readData] at h ⊢
    rcases hr : readFull reader 8 with ⟨e, buf, r⟩
    rw [hr] at h
    cases e with
    | some err => rfl
    | none => simp at h
  | float32 x =>
    simp only [readData] at h ⊢
    rcases hr : readFull reader 4 with ⟨e, buf, r⟩
    rw [hr] at h
    cases e with
    | some err => rfl
    | none => simp at h
  | float64 x =>
    simp only [readData] at h ⊢
    rcases hr : readFull reader 8 with ⟨e, buf, r⟩
    rw [hr] at h
    cases e with
    | some err => rfl
    | none => simp at h

/-- Reading a list of fields whose first part is read without error: the loop goes on
with the remaining fields from the reader left by the first part. -/
theorem readFields_append (pre rest pre' : List Value) (reader mid : List Nat)
    (h : readFields reader pre = (none, pre', mid)) :
    readFields reader (pre ++ rest) =
      ((readFields mid rest).1, pre' ++ (readFields mid rest).2.1,
        (readFields mid rest).2.2) := by
  induction pre generalizing reader pre' with
  | nil =>
    simp only [readFields, Prod.mk.injEq, true_and] at h
    obtain ⟨h1, h2⟩ := h
    subst h1 h2
    simp
  | cons f pre ih =>
    simp only [readFields, List.cons_append] at h ⊢
    rcases hf : readData reader f with ⟨e, f', r1⟩
    rw [hf] at h
    cases e with
    | some err => simp at h
    | none =>
      simp only at h ⊢
      rcases hp : readFields r1 pre with ⟨e2, p2, r2⟩
      rw [hp] at h
      simp only [Prod.mk.injEq] at h
      obtain ⟨h1, h2, h3⟩ := h
      subst h1 h2 h3
      have h5 := ih p2 r1 hp
      simp only [List.append_eq, h5, List.cons_append]

/-- The shape of a failed read of a list of fields: the fields before the failing one
are decoded, the failing field is what its own `readData` left, and the fields after
it are untouched. -/
theorem readFields_error (fields : List Value) (reader : List Nat) (err : Error)
    (h : (readFields reader fields).1 = some err) :
    ∃ (pre : List Value) (f : Value) (post pre' : List Value) (mid : List Nat),
      fields = pre ++ f :: post ∧ readFields reader pre = (none, pre', mid) ∧
        (readData mid f).1 = some err ∧
        readFields reader fields =
          (some err, pre' ++ (readData mid f).2.1 :: post, (readData mid f).2.2) := by
  induction fields generalizing reader with
  | nil => simp [readFields] at h
  | cons f rest ih =>
    rcases hf : readData reader f with ⟨e, f', r1⟩
    cases e with
    | some e1 =>
      simp only [readFields, hf] at h
      simp only [Option.some.injEq] at h
      subst h
      refine ⟨[], f, rest, [], reader, rfl, rfl, ?_, ?_⟩
      · rw [hf]
      · simp [readFields, hf]
    | none =>
      simp only [readFields, hf] at h
      obtain ⟨pre, g, post, pre', mid, h1, h2, h3, h4⟩ := ih r1 h
      refine ⟨f :: pre, g, post, f' :: pre', mid, ?_, ?_, h3, ?_⟩
      · rw [h1]; rfl
      · simp [readFields, hf, h2]
      · simp [readFields, hf, h4]

mutual

/-- A record with a field of an unsupported kind is never read without error. -/
theorem readData_unsupported : ∀ (v : Value) (reader : List Nat),
    hasUnsupported v = true → (readData reader v).1 ≠ none
  | .struct fields, reader, hv => by
    simp only [hasUnsupported] at hv
    simp only [readData]
    exact readFields_unsupported fields reader hv
  | .other _, _, _ => by simp [readData]
  | .bool _, _, hv => by simp [hasUnsupported] at hv
  | .int8 _, _, hv => by simp [hasUnsupported] at hv
  | .int16 _, _, hv => by simp [hasUnsupported] at hv
  | .int32 _, _, hv => by simp [hasUnsupported] at hv
  | .int64 _, _, hv => by simp [hasUnsupported] at hv
  | .uint8 _, _, hv => by simp [hasUnsupported] at hv
  | .uint16 _, _, hv => by simp [hasUnsupported] at hv
  | .uint32 _, _, hv => by simp [hasUnsupported] at hv
  | .uint64 _, _, hv => by simp [hasUnsupported] at hv
  | .float32 _, _, hv => by simp [hasUnsupported] at hv
  | .float64 _, _, hv => by simp [hasUnsupported] at hv
  | .string _, _, hv => by simp [hasUnsupported] at hv

theorem readFields_unsupported : ∀ (fields : List Value) (reader : List Nat),
    anyUnsupported fields = true → (readFields reader fields).1 ≠ none
  | [], _, hv => by simp [anyUnsupported] at hv
  | f :: rest, reader, hv => by
    simp only [anyUnsupported, Bool.or_eq_true] at hv
    simp only [readFields]
    rcases hf : readData reader f with ⟨e, f', r1⟩
    cases e with
    | some err => simp
    | none =>
      simp only
      rcases hv with hv | hv
      · exact absurd (by rw [hf]) (readData_unsupported f reader hv)
      · exact readFields_unsupported rest r1 hv

end

mutual

/-- A record with a field of an unsupported kind is never written without error. -/
theorem writeData_unsupported : ∀ (v : Value) (writer : List Nat),
    hasUnsupported v = true → (writeData writer v).1 ≠ none
  | .struct fields, writer, hv => by
    simp only [hasUnsupported] at hv
    simp only [writeData]
    exact writeFields_unsupported fields writer hv
  | .other _, _, _ => by simp [writeData]
  | .bool _, _, hv => by simp [hasUnsupported] at hv
  | .int8 _, _, hv => by simp [hasUnsupported] at hv
  | .int16 _, _, hv => by simp [hasUnsupported] at hv
  | .int32 _, _, hv => by simp [hasUnsupported] at hv
  | .int64 _, _, hv => by simp [hasUnsupported] at hv
  | .uint8 _, _, hv => by simp [hasUnsupported] at hv
  | .uint16 _, _, hv => by simp [hasUnsupported] at hv
  | .uint32 _, _, hv => by simp [hasUnsupported] at hv
  | .uint64 _, _, hv => by simp [hasUnsupported] at hv
  | .float32 _, _, hv => by simp [hasUnsupported] at hv
  | .float64 _, _, hv => by simp [hasUnsupported] at hv
  | .string _, _, hv => by simp [hasUnsupported] at hv

theorem writeFields_unsupported : ∀ (fields : List Value) (writer : List Nat),
    anyUnsupported fields = true → (writeFields writer fields).1 ≠ none
  | [], _, hv => by simp [anyUnsupported] at hv
  | f :: rest, writer, hv => by
    simp only [anyUnsupported, Bool.or_eq_true] at hv
    simp only [writeFields]
    rcases hf : writeData writer f with ⟨e, w1⟩
    cases e with
    | some err => simp
    | none =>
      simp only
      rcases hv with hv | hv
      · exact absurd (by rw [hf]) (writeData_unsupported f writer hv)
      · exact writeFields_unsupported rest w1 hv

end

/-- Writing a list of fields whose first part is written without error: the loop goes on
with the remaining fields. -/
theorem writeFields_append (pre rest : List Value) (writer mid : List Nat)
    (h : writeFields writer pre = (none, mid)) :
    writeFields writer (pre ++ rest) = writeFields mid rest := by
  induction pre generalizing writer with
  | nil =>
    simp only [writeFields, Prod.mk.injEq, true_and] at h
    subst h
    rfl
  | cons f pre ih =>
    simp only [writeFields, List.cons_append] at h ⊢
    rcases hf : writeData writer f with ⟨e, w1⟩
    rw [hf] at h
    cases e with
    | some err => simp at h
    | none => exact ih w1 h

theorem stringLen_replicate (n c : Nat) :
    stringLen (List.replicate n c) = n * runeLen c := by
  induction n with
  | zero => simp [stringLen]
  | succ n ih =>
    simp only [stringLen, List.replicate_succ, List.map_cons, List.sum_cons] at ih ⊢
    rw [ih]
    ring

theorem length_decodeUtf8 (s : List Nat) : (decodeUtf8 s).length = s.length := by
  simp [decodeUtf8]

/-! ## Packet serializer: main results on errors and wire form -/

/-- C11, as stated, fails: reading the single byte `05` into a record of two `int8`
fields that both hold `0` stops with `io.EOF` at the second field, and the first field
of the destination then holds `5`, not the `0` it held before the call. -/
theorem ReadPacket_short_read_leaves_decoded_field :
    ReadPacket [5] (.ptr (.struct [.int8 0, .int8 0]))
        = (some Error.EOF, .ptr (.struct [.int8 5, .int8 0]), []) ∧
      Packet.ptr (.struct [.int8 5, .int8 0]) ≠ Packet.ptr (.struct [.int8 0, .int8 0]) := by
  refine ⟨rfl, ?_⟩
  simp

/-- C11, amended: if `ReadPacket` into a record returns an error, the record splits
into the fields before the failing one, the failing field and the fields after it: the
fields before it hold the values that were decoded into them from the reader (they are
not restored), the failing field holds what its own decoding left, which is its old
value when it is not itself a nested record, and every field after it holds the value
it had before the call. -/
theorem ReadPacket_error_keeps_later_fields (fields : List Value) (reader : List Nat)
    (err : Error) (h : (ReadPacket reader (.ptr (.struct fields))).1 = some err) :
    ∃ (pre : List Value) (f : Value) (post pre' : List Value) (mid : List Nat),
      fields = pre ++ f :: post ∧ readFields reader pre = (none, pre', mid) ∧
        (readData mid f).1 = some err ∧
        ReadPacket reader (.ptr (.struct fields)) =
          (some err, .ptr (.struct (pre' ++ (readData mid f).2.1 :: post)),
            (readData mid f).2.2) ∧
        (isStruct f = false → (readData mid f).2.1 = f) := by
  simp only [ReadPacket, readData] at h
  obtain ⟨pre, f, post, pre', mid, h1, h2, h3, h4⟩ := readFields_error fields reader err h
  refine ⟨pre, f, post, pre', mid, h1, h2, h3, ?_, ?_⟩
  · simp only [ReadPacket, readData, h4]
  · intro hs
    exact readData_error_keeps_field f mid hs (by rw [h3]; simp)

/-- C11, amended, at a record of three `int8` fields read from two bytes. -/
theorem ReadPacket_error_keeps_later_fields_witness :
    (ReadPacket [5, 6] (.ptr (.struct [.int8 0, .int8 1, .int8 2]))).1 = some Error.EOF ∧
      ∃ (pre : List Value) (f : Value) (post pre' : List Value) (mid : List Nat),
        [Value.int8 0, Value.int8 1, Value.int8 2] = pre ++ f :: post ∧
          readFields [5, 6] pre = (none, pre', mid) ∧
          (readData mid f).1 = some Error.EOF ∧
          ReadPacket [5, 6] (.ptr (.struct [.int8 0, .int8 1, .int8 2])) =
            (some Error.EOF, .ptr (.struct (pre' ++ (readData mid f).2.1 :: post)),
              (readData mid f).2.2) ∧
          (isStruct f = false → (readData mid f).2.1 = f) :=
  ⟨rfl, ReadPacket_error_keeps_later_fields [.int8 0, .int8 1, .int8 2] [5, 6] Error.EOF rfl⟩

/-- C12: for every record of `bool` and fixed-width integer fields, the bytes
`WritePacket` emits are exactly the wire form of the specification (the concatenation in
declaration order, nested records flattened, of the big-endian encodings of the fields on
1, 2, 4 or 8 bytes, with nothing else); their number is the sum of the widths, and a
successful `ReadPacket` into a record of the same type takes exactly that many bytes
from the reader. -/
theorem WritePacket_wire_form (v : Value) (hv : isFixedInt v = true) :
    WritePacket [] (.val v) = (none, wireForm v) ∧
      (wireForm v).length = wireWidth v ∧
      ∀ (dst : Value) (reader : List Nat), sameType dst v = true →
        (ReadPacket reader (.ptr dst)).1 = none →
          wireWidth v ≤ reader.length ∧
            (ReadPacket reader (.ptr dst)).2.2 = reader.drop (wireWidth v) := by
  refine ⟨?_, length_wireForm v, ?_⟩
  · simp only [WritePacket, writeData_wireForm v [] hv, List.nil_append]
  · intro dst reader ht h
    simp only [ReadPacket] at h ⊢
    have h2 := readData_consumes v dst reader hv ht h
    exact ⟨h2.2, h2.1⟩

/-- C12 at `PacketKeepAlive{Id: 0x01020304}`, which encodes as `01 02 03 04`. -/
theorem WritePacket_wire_form_witness :
    isFixedInt (.struct [.int32 0x01020304]) = true ∧
      WritePacket [] (.val (.struct [.int32 0x01020304])) = (none, [1, 2, 3, 4]) :=
  ⟨by decide, (WritePacket_wire_form (.struct [.int32 0x01020304]) (by decide)).1⟩

/-- C13: when a string field is decoded and the first of the two bytes of the length is
`0x80` or more, the length read as a signed 16-bit big-endian integer is negative, and
`readData`, hence `ReadPacket` on a string or on a record that starts with a string
field, returns `ErrorStrLengthNegative`, having taken exactly those two bytes from the
reader and leaving the string as it was. -/
theorem ReadPacket_negative_string_length (b0 b1 : Nat) (rest s : List Nat)
    (post : List Value) (h0 : 0x80 ≤ b0) (hb0 : b0 < 256) (hb1 : b1 < 256) :
    toSigned 16 (beUint [b0, b1]) < 0 ∧
      readData (b0 :: b1 :: rest) (.string s)
        = (some Error.ErrorStrLengthNegative, .string s, rest) ∧
      ReadPacket (b0 :: b1 :: rest) (.ptr (.string s))
        = (some Error.ErrorStrLengthNegative, .ptr (.string s), rest) ∧
      ReadPacket (b0 :: b1 :: rest) (.ptr (.struct (.string s :: post)))
        = (some Error.ErrorStrLengthNegative, .ptr (.struct (.string s :: post)), rest) := by
  have hneg : toSigned 16 (beUint [b0, b1]) < 0 := by
    simp only [toSigned, beUint, List.foldl]
    norm_num
    omega
  have hr : readData (b0 :: b1 :: rest) (.string s)
      = (some Error.ErrorStrLengthNegative, .string s, rest) := by
    simp only [readData, readFull, List.length_cons]
    have : 2 ≤ rest.length + 1 + 1 := by omega
    simp only [this, if_true, List.take, List.drop]
    rw [if_pos hneg]
  have hf : readFields (b0 :: b1 :: rest) (.string s :: post)
      = (some Error.ErrorStrLengthNegative, .string s :: post, rest) := by
    simp only [readFields, hr]
  refine ⟨hneg, hr, ?_, ?_⟩
  · simp only [ReadPacket, hr]
  · simp only [ReadPacket, readData.eq_1, hf]

/-- C13 at the bytes `80 00` followed by one more byte. -/
theorem ReadPacket_negative_string_length_witness :
    (0x80 : Nat) ≤ 0x80 ∧ (0x80 : Nat) < 256 ∧ (0 : Nat) < 256 ∧
      ReadPacket [0x80, 0, 7] (.ptr (.string [0x41]))
        = (some Error.ErrorStrLengthNegative, .ptr (.string [0x41]), [7]) :=
  ⟨by decide, by decide, by decide,
    (ReadPacket_negative_string_length 0x80 0 [7] [0x41] [] (by decide) (by decide)
      (by decide)).2.2.1⟩

/-- C14: the failing input of the length check.  The string of 16384 code points
`U+00E9` encodes to 16384 code units, which is less than 32767, and `WritePacket`
refuses it with `ErrorStrTooLong`, because its 32768 bytes exceed `math.MaxInt16`. -/
theorem WritePacket_refuses_string_of_16384_units :
    (decodeUtf8 (List.replicate 16384 0xE9)).length = 16384 ∧
      stringLen (List.replicate 16384 0xE9) = 32768 ∧
      WritePacket [] (.val (.string (List.replicate 16384 0xE9)))
        = (some Error.ErrorStrTooLong, []) := by
  have hl : stringLen (List.replicate 16384 0xE9) = 32768 := by
    rw [stringLen_replicate]
    decide
  refine ⟨by rw [length_decodeUtf8, List.length_replicate], hl, ?_⟩
  simp only [WritePacket, writeData, hl, MaxInt16]
  norm_num

/-- C15, as stated, fails: a record with a field of type `[]int32` and a record with a
field of type `map[string]int` get the same error from `ReadPacket`, and the same error
from `WritePacket`; the error is the constant `ErrorInternal` and tells nothing of the
type. -/
theorem unsupported_error_same_for_all_types :
    (ReadPacket [] (.ptr (.struct [.other "[]int32"]))).1 = some Error.ErrorInternal ∧
      (ReadPacket [] (.ptr (.struct [.other "map[string]int"]))).1
        = some Error.ErrorInternal ∧
      (WritePacket [] (.val (.struct [.other "[]int32"]))).1 = some Error.ErrorInternal ∧
      (WritePacket [] (.val (.struct [.other "map[string]int"]))).1
        = some Error.ErrorInternal ∧
      ("[]int32" : String) ≠ "map[string]int" := by
  refine ⟨rfl, rfl, rfl, rfl, by decide⟩

/-- C15, amended: for every record with a field, at any depth, of a kind outside the
supported set, `ReadPacket` and `WritePacket` (given the record or a pointer to it)
return an error instead of succeeding; when the fields before such a field are read, or
written, without error, the error is the constant `ErrorInternal`, whatever the type of
the field, and the field is left as it was. -/
theorem unsupported_field_is_an_error (v : Value) (hv : hasUnsupported v = true)
    (reader writer : List Nat) :
    (ReadPacket reader (.ptr v)).1 ≠ none ∧
      (WritePacket writer (.val v)).1 ≠ none ∧
      (WritePacket writer (.ptr v)).1 ≠ none ∧
      (∀ (pre post pre' : List Value) (typ : String) (mid : List Nat),
        readFields reader pre = (none, pre', mid) →
          ReadPacket reader (.ptr (.struct (pre ++ .other typ :: post)))
            = (some Error.ErrorInternal, .ptr (.struct (pre' ++ .other typ :: post)),
                mid)) ∧
      (∀ (pre post : List Value) (typ : String) (mid : List Nat),
        writeFields writer pre = (none, mid) →
          WritePacket writer (.val (.struct (pre ++ .other typ :: post)))
            = (some Error.ErrorInternal, mid)) := by
  refine ⟨?_, ?_, ?_, ?_, ?_⟩
  · simp only [ReadPacket]
    exact readData_unsupported v reader hv
  · exact writeData_unsupported v writer hv
  · exact writeData_unsupported v writer hv
  · intro pre post pre' typ mid h
    simp only [ReadPacket, readData, readFields_append pre _ pre' reader mid h, readFields]
  · intro pre post typ mid h
    simp only [WritePacket, writeData, writeFields_append pre _ writer mid h, writeFields]

/-- C15, amended, at a record whose second field is a slice. -/
theorem unsupported_field_is_an_error_witness :
    hasUnsupported (.struct [.int8 1, .other "[]int32"]) = true ∧
      (ReadPacket [9, 9] (.ptr (.struct [.int8 1, .other "[]int32"]))).1 ≠ none ∧
      (WritePacket [] (.val (.struct [.int8 1, .other "[]int32"]))).1 ≠ none :=
  ⟨by decide,
    (unsupported_field_is_an_error (.struct [.int8 1, .other "[]int32"]) (by decide)
      [9, 9] []).1,
    (unsupported_field_is_an_error (.struct [.int8 1, .other "[]int32"]) (by decide)
      [9, 9] []).2.1⟩

end Proto

namespace Player

/-! ## Keep-alive: auxiliary facts -/

/-- The subtraction of two clock readings, both times since the epoch, does not wrap. -/
theorem toSigned_64_sub (now ts : Int) (h0 : 0 ≤ now) (h1 : now < 2 ^ 63)
    (h2 : 0 ≤ ts) (h3 : ts < 2 ^ 63) : Proto.toSigned 64 (now - ts) = now - ts := by
  simp only [Proto.toSigned]
  norm_num at h1 h2 h3 ⊢
  omega

theorem Stop_pending (player : Player) : (Stop player).stopPlayer ≠ [] := by
  unfold Stop
  split_ifs with h
  · simp
  · intro h2
    rw [h2] at h
    simp at h

/-! ## Keep-alive: main results -/

/-- C16: for every value `rand31` of the random generator, `pingNew` called while no
ping is running leaves `ping.running = true` and `ping.id ≠ 0` (the id is `rand31`, or
`1` when `rand31` is `0`), records the time and a timer of `PingTimeoutNs`, and queues
exactly one packet, the keep-alive that carries that id; called while a ping is running
it changes nothing. -/
theorem pingNew_spec (player : Player) (rand31 now : Int) :
    (player.ping.running = false →
      (pingNew player rand31 now).ping.running = true ∧
        (pingNew player rand31 now).ping.id ≠ 0 ∧
        (pingNew player rand31 now).ping.id = (if rand31 = 0 then 1 else rand31) ∧
        (pingNew player rand31 now).ping.timestampNs = now ∧
        (pingNew player rand31 now).ping.timer = some PingTimeoutNs ∧
        (pingNew player rand31 now).txQueue =
          player.txQueue ++ [[Message.keepAlive (pingNew player rand31 now).ping.id]] ∧
        (pingNew player rand31 now).stopPlayer = player.stopPlayer ∧
        (pingNew player rand31 now).gameBroadcast = player.gameBroadcast) ∧
    (player.ping.running = true → pingNew player rand31 now = player) := by
  refine ⟨?_, ?_⟩
  · intro h
    by_cases hr : rand31 = 0
    · simp [pingNew, TransmitPacket, h, hr]
    · simp [pingNew, TransmitPacket, h, hr]
  · intro h
    simp [pingNew, h]

/-- C16 for a new player and the generated value `0`: the id sent is `1`. -/
theorem pingNew_spec_witness :
    (NewPlayer "a").ping.running = false ∧
      (pingNew (NewPlayer "a") 0 100).ping.running = true ∧
      (pingNew (NewPlayer "a") 0 100).ping.id = 1 ∧
      (pingNew (NewPlayer "a") 0 100).txQueue = [[Message.keepAlive 1]] :=
  ⟨rfl, ((pingNew_spec (NewPlayer "a") 0 100).1 rfl).1,
    ((pingNew_spec (NewPlayer "a") 0 100).1 rfl).2.2.1,
    ((pingNew_spec (NewPlayer "a") 0 100).1 rfl).2.2.2.2.2.1⟩

/-- C17: with a ping running and outstanding id `p ≠ 0`, in either mode,
`pingReceived(p)` returns the keep-alive state to idle (`running = false`, `id = 0`, a
timer of `PingIntervalNs`), requests no stop and queues nothing, and hands one packet,
the user-list item with the latency, to the broadcast if and only if
`0 ≤ now - ping.timestampNs < PingTimeoutNs`; the clock
reading `now` and the stored time stamp are times since the epoch, as
`time.Nanoseconds()` returns them. -/
theorem pingReceived_matching (playerPingNoCheck : Bool) (player : Player) (now : Int)
    (hrun : player.ping.running = true) (hid : player.ping.id ≠ 0)
    (h0 : 0 ≤ now) (h1 : now < 2 ^ 63)
    (h2 : 0 ≤ player.ping.timestampNs) (h3 : player.ping.timestampNs < 2 ^ 63) :
    (pingReceived playerPingNoCheck player player.ping.id now).ping.running = false ∧
      (pingReceived playerPingNoCheck player player.ping.id now).ping.id = 0 ∧
      (pingReceived playerPingNoCheck player player.ping.id now).ping.timer
        = some PingIntervalNs ∧
      (pingReceived playerPingNoCheck player player.ping.id now).stopPlayer
        = player.stopPlayer ∧
      (pingReceived playerPingNoCheck player player.ping.id now).txQueue
        = player.txQueue ∧
      ((0 ≤ now - player.ping.timestampNs ∧ now - player.ping.timestampNs < PingTimeoutNs) →
        (pingReceived playerPingNoCheck player player.ping.id now).gameBroadcast
          = player.gameBroadcast ++
              [[Message.userListItem player.name true
                (Proto.toSigned 16
                  (Int.tdiv (now - player.ping.timestampNs) 1000000))]]) ∧
      (¬ (0 ≤ now - player.ping.timestampNs ∧
          now - player.ping.timestampNs < PingTimeoutNs) →
        (pingReceived playerPingNoCheck player player.ping.id now).gameBroadcast
          = player.gameBroadcast) := by
  have hv : pingReceived playerPingNoCheck player player.ping.id now
      = pingReceivedValid player now := by
    cases playerPingNoCheck <;> simp [pingReceived, hrun, hid]
  rw [hv]
  have hs := toSigned_64_sub now player.ping.timestampNs h0 h1 h2 h3
  simp only [pingReceivedValid, hs, ge_iff_le]
  by_cases hl : 0 ≤ now - player.ping.timestampNs ∧
      now - player.ping.timestampNs < PingTimeoutNs
  · rw [if_pos hl]
    refine ⟨?_, ?_, ?_, ?_, ?_, ?_, ?_⟩
    all_goals first | trivial | rfl | exact fun _ => rfl | exact fun h => absurd hl h
  · rw [if_neg hl]
    refine ⟨?_, ?_, ?_, ?_, ?_, ?_, ?_⟩
    all_goals first | trivial | rfl | exact fun h => absurd h hl | exact fun _ => rfl

/-- C17 for a ping sent at time `100` and answered 3 ms later. -/
theorem pingReceived_matching_witness :
    (pingNew (NewPlayer "a") 5 100).ping.running = true ∧
      (pingNew (NewPlayer "a") 5 100).ping.id ≠ 0 ∧
      (pingReceived false (pingNew (NewPlayer "a") 5 100)
        (pingNew (NewPlayer "a") 5 100).ping.id 3000100).ping.running = false ∧
      (pingReceived false (pingNew (NewPlayer "a") 5 100)
        (pingNew (NewPlayer "a") 5 100).ping.id 3000100).ping.id = 0 :=
  ⟨by decide, by decide,
    (pingReceived_matching false (pingNew (NewPlayer "a") 5 100) 3000100 (by decide)
      (by decide) (by decide) (by decide) (by decide) (by decide)).1,
    (pingReceived_matching false (pingNew (NewPlayer "a") 5 100) 3000100 (by decide)
      (by decide) (by decide) (by decide) (by decide) (by decide)).2.1⟩

/-- C18: the failing input of the latency value.  A ping sent at time `0` is answered
after 40 s: `0 ≤ now - ping.timestampNs < PingTimeoutNs` holds, the latency is 40000 ms,
and the value placed in the user-list packet is `int16(40000) = -25536`, a negative
number. -/
theorem pingReceived_latency_wraps :
    (0 : Int) ≤ 40000000000 - (pingNew (NewPlayer "a") 5 0).ping.timestampNs ∧
      40000000000 - (pingNew (NewPlayer "a") 5 0).ping.timestampNs < PingTimeoutNs ∧
      (40000000000 - (pingNew (NewPlayer "a") 5 0).ping.timestampNs) / 10 ^ 6 = 40000 ∧
      (pingReceived false (pingNew (NewPlayer "a") 5 0) 5 40000000000).gameBroadcast
        = [[Message.userListItem "a" true (-25536)]] := by
  decide

/-- C19: in the strict mode, for every non-zero id, `pingReceived(id)` while no ping is
running, or while a ping is running with another id, is a call of `Stop` and nothing
else: a stop signal is pending afterwards, nothing is broadcast or queued, and the ping
state, its timer included, is unchanged. -/
theorem pingReceived_strict_violation (player : Player) (id now : Int) (hid : id ≠ 0)
    (h : player.ping.running = false ∨
      (player.ping.running = true ∧ id ≠ player.ping.id)) :
    pingReceived false player id now = Stop player ∧
      (pingReceived false player id now).stopPlayer ≠ [] ∧
      (pingReceived false player id now).gameBroadcast = player.gameBroadcast ∧
      (pingReceived false player id now).txQueue = player.txQueue ∧
      (pingReceived false player id now).ping = player.ping := by
  have hs : pingReceived false player id now = Stop player := by
    rcases h with h | ⟨h, h'⟩
    · simp [pingReceived, hid, h]
    · simp [pingReceived, hid, h, h']
  rw [hs]
  refine ⟨rfl, Stop_pending player, ?_, ?_, ?_⟩ <;>
    (unfold Stop; split_ifs <;> rfl)

/-- C19 for an answer with id `7` to a ping with id `5`, and for an answer while idle. -/
theorem pingReceived_strict_violation_witness :
    (7 : Int) ≠ 0 ∧
      pingReceived false (pingNew (NewPlayer "a") 5 100) 7 200
        = Stop (pingNew (NewPlayer "a") 5 100) ∧
      (pingReceived false (NewPlayer "a") 7 200).stopPlayer ≠ [] :=
  ⟨by decide,
    (pingReceived_strict_violation (pingNew (NewPlayer "a") 5 100) 7 200 (by decide)
      (Or.inr ⟨by decide, by decide⟩)).1,
    (pingReceived_strict_violation (NewPlayer "a") 7 200 (by decide) (Or.inl rfl)).2.1⟩

/-- C20, as stated, fails: with the flag set and a ping running with id `5`,
`pingReceived(7)` requests no stop and completes the ping (`running = false`,
`id = 0`). -/
theorem pingReceived_relaxed_accepts_other_id :
    (pingNew (NewPlayer "a") 5 100).ping.running = true ∧
      (pingNew (NewPlayer "a") 5 100).ping.id = 5 ∧
      (pingReceived true (pingNew (NewPlayer "a") 5 100) 7 3000100).stopPlayer = [] ∧
      (pingReceived true (pingNew (NewPlayer "a") 5 100) 7 3000100).ping.running = false ∧
      (pingReceived true (pingNew (NewPlayer "a") 5 100) 7 3000100).ping.id = 0 := by
  decide

/-- C20, amended: the relaxed mode relaxes both checks.  With the flag set, for every
non-zero `q`: while no ping is running `pingReceived(q)` does nothing; while a ping is
running with outstanding id `p` it completes the ping, whether `q = p` or not
(`running = false`, `id = 0`, a timer of `PingIntervalNs`), and it requests no stop. -/
theorem pingReceived_relaxed (player : Player) (q now : Int) (hq : q ≠ 0) :
    (player.ping.running = false → pingReceived true player q now = player) ∧
    (player.ping.running = true →
      pingReceived true player q now = pingReceivedValid player now ∧
        (pingReceived true player q now).ping.running = false ∧
        (pingReceived true player q now).ping.id = 0 ∧
        (pingReceived true player q now).ping.timer = some PingIntervalNs ∧
        (pingReceived true player q now).stopPlayer = player.stopPlayer) := by
  refine ⟨?_, ?_⟩
  · intro h
    simp [pingReceived, hq, h]
  · intro h
    have hv : pingReceived true player q now = pingReceivedValid player now := by
      simp [pingReceived, hq, h]
    rw [hv]
    refine ⟨rfl, ?_, ?_, ?_, ?_⟩ <;>
      (simp only [pingReceivedValid]; try (split_ifs <;> rfl))

/-- C20, amended, for an answer with id `7` to a ping with id `5`. -/
theorem pingReceived_relaxed_witness :
    (7 : Int) ≠ 0 ∧
      pingReceived true (pingNew (NewPlayer "a") 5 100) 7 3000100
        = pingReceivedValid (pingNew (NewPlayer "a") 5 100) 3000100 :=
  ⟨by decide,
    ((pingReceived_relaxed (pingNew (NewPlayer "a") 5 100) 7 3000100 (by decide)).2
      (by decide)).1⟩

end Player

namespace Player

/-! ## Player session: auxiliary facts -/

/-- The exact result of `pingNew` while no ping is running. -/
theorem pingNew_idle (player : Player) (rand31 now : Int)
    (h : player.ping.running = false) :
    pingNew player rand31 now =
      { player with
        ping :=
          { running := true
            id := if rand31 = 0 then 1 else rand31
            timestampNs := now
            timer := some PingTimeoutNs }
        txQueue := player.txQueue ++ [[Message.keepAlive (if rand31 = 0 then 1 else rand31)]] } := by
  by_cases hr : rand31 = 0
  · simp [pingNew, TransmitPacket, h, hr]
  · simp [pingNew, TransmitPacket, h, hr]

/-- The exact result of `Stop`. -/
theorem Stop_eq (player : Player) :
    Stop player =
      { player with
        stopPlayer := if player.stopPlayer.length < 1 then player.stopPlayer ++ [true]
          else player.stopPlayer } := by
  unfold Stop
  split_ifs <;> rfl

/-- The keep-alive invariant: a ping is running exactly when the stored id is not `0`. -/
theorem pingCall_invariant (player : Player) (call : PingCall)
    (h : player.ping.running = true ↔ player.ping.id ≠ 0) :
    (pingCall player call).ping.running = true ↔ (pingCall player call).ping.id ≠ 0 := by
  cases call with
  | pingNew rand31 now =>
    simp only [pingCall]
    cases hr : player.ping.running with
    | true =>
      have : pingNew player rand31 now = player := by simp [pingNew, hr]
      rw [this]; exact h
    | false =>
      rw [pingNew_idle player rand31 now hr]
      by_cases h0 : rand31 = 0 <;> simp [h0]
  | pingTimeout rand31 now =>
    simp only [pingCall, pingTimeout]
    cases hr : player.ping.running with
    | true =>
      simp only [if_true, Stop_eq]
      exact h
    | false =>
      simp only [Bool.false_eq_true, if_false]
      rw [pingNew_idle player rand31 now hr]
      by_cases h0 : rand31 = 0 <;> simp [h0]
  | pingReceived playerPingNoCheck id now =>
    simp only [pingCall, pingReceived]
    have hv : (pingReceivedValid player now).ping.running = true ↔
        (pingReceivedValid player now).ping.id ≠ 0 := by
      simp [pingReceivedValid]
    split_ifs
    all_goals first | exact h | exact hv | (simp only [Stop_eq]; exact h)

/-! ## Player session: main results -/

/-- C21: `pingTimeout`, while a ping is running, is a call of `Stop` and nothing else (a
stop signal is pending afterwards, no packet is queued and the ping state is
unchanged); while no ping is running it is `pingNew`: one keep-alive with a non-zero id
is queued, `ping.running` becomes `true`, and no stop is requested. -/
theorem pingTimeout_spec (player : Player) (rand31 now : Int) :
    (player.ping.running = true →
      pingTimeout player rand31 now = Stop player ∧
        (pingTimeout player rand31 now).stopPlayer ≠ [] ∧
        (pingTimeout player rand31 now).ping = player.ping ∧
        (pingTimeout player rand31 now).txQueue = player.txQueue) ∧
    (player.ping.running = false →
      pingTimeout player rand31 now = pingNew player rand31 now ∧
        (pingTimeout player rand31 now).ping.running = true ∧
        (pingTimeout player rand31 now).ping.id ≠ 0 ∧
        (pingTimeout player rand31 now).txQueue =
          player.txQueue ++
            [[Message.keepAlive (pingTimeout player rand31 now).ping.id]] ∧
        (pingTimeout player rand31 now).stopPlayer = player.stopPlayer) := by
  refine ⟨?_, ?_⟩
  · intro h
    have hs : pingTimeout player rand31 now = Stop player := by simp [pingTimeout, h]
    rw [hs]
    refine ⟨rfl, ?_, ?_, ?_⟩
    · rw [Stop_eq]
      simp only
      split_ifs with hl
      · simp
      · intro h2
        rw [h2] at hl
        simp at hl
    · rw [Stop_eq]
    · rw [Stop_eq]
  · intro h
    have hs : pingTimeout player rand31 now = pingNew player rand31 now := by
      simp [pingTimeout, h]
    rw [hs, pingNew_idle player rand31 now h]
    refine ⟨rfl, rfl, ?_, rfl, rfl⟩
    simp only
    split_ifs with h0
    · decide
    · exact h0

/-- C21 for a ping that timed out, and for a timer that fires while idle. -/
theorem pingTimeout_spec_witness :
    (pingNew (NewPlayer "a") 5 100).ping.running = true ∧
      pingTimeout (pingNew (NewPlayer "a") 5 100) 9 200
        = Stop (pingNew (NewPlayer "a") 5 100) ∧
      (NewPlayer "a").ping.running = false ∧
      pingTimeout (NewPlayer "a") 9 200 = pingNew (NewPlayer "a") 9 200 :=
  ⟨by decide, ((pingTimeout_spec (pingNew (NewPlayer "a") 5 100) 9 200).1 (by decide)).1,
    rfl, ((pingTimeout_spec (NewPlayer "a") 9 200).2 rfl).1⟩

/-- C22: `handleMove` leaves the player as it was (position and height unchanged, no
call of `chunkSubs.Move`, no stop requested) whenever `spawnComplete` is `false` or the
reported position is not within distance 10 of the stored position; when
`spawnComplete` holds and the position is within that distance, it sets the position to
the reported one and the height to `stance - position.Y`, calls `chunkSubs.Move` with
the position, and changes nothing else. -/
theorem handleMove_spec (IsWithinDistanceOf : AbsXyz → AbsXyz → Nat → Bool)
    (subAbsCoord : Nat → Nat → Nat) (player : Player) (position : AbsXyz)
    (stance : Nat) :
    (player.spawnComplete = false ∨
        IsWithinDistanceOf player.position position 10 = false →
      handleMove IsWithinDistanceOf subAbsCoord player position stance = player) ∧
    (player.spawnComplete = true ∧
        IsWithinDistanceOf player.position position 10 = true →
      handleMove IsWithinDistanceOf subAbsCoord player position stance =
        { player with
          position := position
          height := subAbsCoord stance position.Y
          chunkSubsMove := player.chunkSubsMove ++ [position] }) := by
  refine ⟨?_, ?_⟩
  · intro h
    rcases h with h | h
    · simp [handleMove, h]
    · simp [handleMove, h]
  · intro h
    simp [handleMove, h.1, h.2]

/-- C22 for a player that is not spawned yet, and for a spawned player that reports its
own position; the distance test here is equality of positions. -/
theorem handleMove_spec_witness :
    (NewPlayer "a").spawnComplete = false ∧
      handleMove (fun a b _ => decide (a = b)) (fun a b => a - b) (NewPlayer "a")
        ⟨7, 8, 9⟩ 20 = NewPlayer "a" ∧
      (handleMove (fun a b _ => decide (a = b)) (fun a b => a - b)
        { NewPlayer "a" with spawnComplete := true } ⟨0, 0, 0⟩ 20).height = 20 :=
  ⟨rfl,
    (handleMove_spec (fun a b _ => decide (a = b)) (fun a b => a - b) (NewPlayer "a")
      ⟨7, 8, 9⟩ 20).1 (Or.inl rfl),
    congrArg Player.height
      ((handleMove_spec (fun a b _ => decide (a = b)) (fun a b => a - b)
        { NewPlayer "a" with spawnComplete := true } ⟨0, 0, 0⟩ 20).2 ⟨rfl, by decide⟩)⟩

/-- C23: for a click on a window that `handlePacketWindowClick` finds (`clicked` is the
method `Click` of that window): if `Click` returns `TxStateAccepted` or
`TxStateRejected`, exactly one packet is queued, made of the transaction
acknowledgement with the window id and the transaction id of the packet and the flag
`outcome == TxStateAccepted`, followed by the update of the cursor slot, and
`player.cursor` becomes the cursor that `Click` left; if `Click` returns
`TxStateDeferred`, the player is unchanged: no packet is queued and the cursor is as
before. -/
theorem handlePacketWindowClick_spec (WindowIdInventory WindowIdCursor SlotIdCursor : Int)
    (inventoryClick : Click → TxState × Click)
    (windowClick : Window → Click → TxState × Click)
    (player : Player) (pkt : PacketWindowClick) (clicked : Click → TxState × Click)
    (hw : clickedWindow WindowIdInventory inventoryClick windowClick player pkt
      = some clicked) :
    ((clicked (newClick player pkt)).1 ≠ TxState.TxStateDeferred →
      handlePacketWindowClick WindowIdInventory WindowIdCursor SlotIdCursor inventoryClick
          windowClick player pkt =
        { player with
          cursor := (clicked (newClick player pkt)).2.Cursor
          txQueue := player.txQueue ++
            [[Message.windowTransaction pkt.WindowId pkt.TxId
                (decide ((clicked (newClick player pkt)).1 = TxState.TxStateAccepted)),
              Message.windowSetSlot WindowIdCursor SlotIdCursor
                (clicked (newClick player pkt)).2.Cursor.ItemTypeId
                (clicked (newClick player pkt)).2.Cursor.Count
                (clicked (newClick player pkt)).2.Cursor.Data]] }) ∧
    ((clicked (newClick player pkt)).1 = TxState.TxStateDeferred →
      handlePacketWindowClick WindowIdInventory WindowIdCursor SlotIdCursor inventoryClick
          windowClick player pkt = player) := by
  simp only [handlePacketWindowClick, hw]
  rcases hc : clicked (newClick player pkt) with ⟨tx, click⟩
  cases tx <;> simp [SendUpdate, TransmitPacket]

/-- C23 for a click on the player's inventory that is accepted and leaves `{5,1,0}` on
the cursor. -/
theorem handlePacketWindowClick_spec_witness :
    clickedWindow 0 (fun c => (TxState.TxStateAccepted, { c with Cursor := ⟨5, 1, 0⟩ }))
        (fun _ c => (TxState.TxStateDeferred, c)) (NewPlayer "a")
        ⟨0, 3, false, false, 77, ⟨0, 0, 0⟩⟩
      = some (fun c => (TxState.TxStateAccepted, { c with Cursor := ⟨5, 1, 0⟩ })) ∧
    (handlePacketWindowClick 0 (-1) (-1)
        (fun c => (TxState.TxStateAccepted, { c with Cursor := ⟨5, 1, 0⟩ }))
        (fun _ c => (TxState.TxStateDeferred, c)) (NewPlayer "a")
        ⟨0, 3, false, false, 77, ⟨0, 0, 0⟩⟩).txQueue
      = [[Message.windowTransaction 0 77 true, Message.windowSetSlot (-1) (-1) 5 1 0]] :=
  ⟨rfl,
    congrArg Player.txQueue
      ((handlePacketWindowClick_spec 0 (-1) (-1)
        (fun c => (TxState.TxStateAccepted, { c with Cursor := ⟨5, 1, 0⟩ }))
        (fun _ c => (TxState.TxStateDeferred, c)) (NewPlayer "a")
        ⟨0, 3, false, false, 77, ⟨0, 0, 0⟩⟩ _ rfl).1 (by decide))⟩

/-- C24, as stated, fails: once the remote inventory is closed (`remoteInv` is `nil`),
the call `inventoryTxState(block, 77, true)` queues no packet, whatever `IsForBlock`
answers. -/
theorem inventoryTxState_after_close_queues_nothing :
    (NewPlayer "a").remoteInv = none ∧
      (inventoryTxState (fun _ _ => true)
        { NewPlayer "a" with curWindow := some ⟨3⟩ } ⟨1, 2, 3⟩ 77 true).txQueue
        = ({ NewPlayer "a" with curWindow := some ⟨3⟩ } : Player).txQueue ∧
      (inventoryTxState (fun _ _ => true)
        { NewPlayer "a" with curWindow := some ⟨3⟩ } ⟨1, 2, 3⟩ 77 true).txQueue = [] := by
  decide

/-- C24, amended: `inventoryTxState(block, txId, accepted)` queues exactly one packet,
the acknowledgement with the id of the current window, `txId` and `accepted`, and
changes nothing else, when a remote inventory is open for that block and there is a
current window; when the remote inventory is closed, or is for another block, or there
is no current window, it changes nothing and queues nothing. -/
theorem inventoryTxState_spec (IsForBlock : RemoteInventory → BlockXyz → Bool)
    (player : Player) (block : BlockXyz) (txId : Int) (accepted : Bool) :
    (∀ (remoteInv : RemoteInventory) (curWindow : Window),
      player.remoteInv = some remoteInv → IsForBlock remoteInv block = true →
        player.curWindow = some curWindow →
          inventoryTxState IsForBlock player block txId accepted =
            { player with
              txQueue := player.txQueue ++
                [[Message.windowTransaction curWindow.WindowId txId accepted]] }) ∧
    (player.remoteInv = none ∨ player.curWindow = none ∨
        (∃ remoteInv, player.remoteInv = some remoteInv ∧
          IsForBlock remoteInv block = false) →
      inventoryTxState IsForBlock player block txId accepted = player) := by
  refine ⟨?_, ?_⟩
  · intro remoteInv curWindow h1 h2 h3
    simp [inventoryTxState, h1, h2, h3, TransmitPacket]
  · intro h
    rcases h with h | h | ⟨remoteInv, h1, h2⟩
    · simp [inventoryTxState, h]
    · cases hr : player.remoteInv <;> simp [inventoryTxState, h, hr]
    · cases hc : player.curWindow <;> simp [inventoryTxState, h1, h2, hc]

/-- C24, amended, for an open remote inventory at the block of the call. -/
theorem inventoryTxState_spec_witness :
    (inventoryTxState (fun inv b => decide (inv.block = b))
        { NewPlayer "a" with curWindow := some ⟨3⟩, remoteInv := some ⟨⟨1, 2, 3⟩⟩ }
        ⟨1, 2, 3⟩ 77 true).txQueue
      = [[Message.windowTransaction 3 77 true]] :=
  congrArg Player.txQueue
    ((inventoryTxState_spec (fun inv b => decide (inv.block = b))
      { NewPlayer "a" with curWindow := some ⟨3⟩, remoteInv := some ⟨⟨1, 2, 3⟩⟩ }
      ⟨1, 2, 3⟩ 77 true).1 ⟨⟨1, 2, 3⟩⟩ ⟨3⟩ rfl (by decide) rfl)

/-- C25: `Stop` is a total function (it never waits) and is idempotent on the channel of
capacity 1: with a signal already pending it changes nothing, otherwise it makes
exactly one signal pending, and it touches no other field; hence after `n ≥ 1` calls
with no receive in between exactly one signal is pending. -/
theorem Stop_idempotent (player : Player) (n : Nat)
    (hcap : player.stopPlayer.length ≤ 1) (hn : 1 ≤ n) :
    (player.stopPlayer ≠ [] → Stop player = player) ∧
      (player.stopPlayer = [] → Stop player = { player with stopPlayer := [true] }) ∧
      Stop (Stop player) = Stop player ∧
      (Stop^[n] player) = Stop player ∧
      (Stop^[n] player).stopPlayer.length = 1 := by
  have h1 : player.stopPlayer ≠ [] → Stop player = player := by
    intro h
    have : ¬ player.stopPlayer.length < 1 := by
      cases hq : player.stopPlayer with
      | nil => exact absurd hq h
      | cons a l => simp
    simp [Stop, this]
  have h2 : player.stopPlayer = [] → Stop player = { player with stopPlayer := [true] } := by
    intro h
    simp [Stop, h]
  have h3 : ∀ p : Player, Stop (Stop p) = Stop p := by
    intro p
    rw [Stop_eq p, Stop_eq]
    by_cases hl : p.stopPlayer.length < 1
    · simp [hl]
    · simp [hl]
  have h4 : ∀ m : Nat, 1 ≤ m → (Stop^[m] player) = Stop player := by
    intro m hm
    induction m with
    | zero => omega
    | succ k ih =>
      rw [Function.iterate_succ_apply']
      by_cases hk : k = 0
      · subst hk; rfl
      · rw [ih (by omega), h3]
  refine ⟨h1, h2, h3 player, h4 n hn, ?_⟩
  rw [h4 n hn, Stop_eq]
  by_cases hl : player.stopPlayer.length < 1
  · have : player.stopPlayer = [] := List.length_eq_zero.mp (by omega)
    simp [this]
  · simp only [if_neg hl]
    omega

/-- C25 for three calls of `Stop` on a new player. -/
theorem Stop_idempotent_witness :
    (NewPlayer "a").stopPlayer.length ≤ 1 ∧ 1 ≤ 3 ∧
      (Stop^[3] (NewPlayer "a")).stopPlayer.length = 1 :=
  ⟨by decide, by decide, (Stop_idempotent (NewPlayer "a") 3 (by decide) (by decide)).2.2.2.2⟩

/-- C26: `handlePacketPlayerBlockInteract` leaves the player as it was (no request to a
shard, no stop requested) when the face of the packet is outside
`[FaceMinValid, FaceMaxValid]`, when the midpoint of the block is not within
`MaxInteractDistance` of the position of the player, or when there is no shard for the
block; when both checks pass and a shard exists for the block, it issues exactly one
request `ReqInteractBlock` to that shard, with the held item, the block and the face,
and changes nothing else. -/
theorem handlePacketPlayerBlockInteract_spec (FaceMinValid FaceMaxValid : Int)
    (MaxInteractDistance : Nat) (MidPointToAbsXyz : BlockXyz → AbsXyz)
    (IsWithinDistanceOf : AbsXyz → AbsXyz → Nat → Bool)
    (ShardClientForBlockXyz : BlockXyz → Option Nat) (HeldItem : Slot)
    (player : Player) (pkt : PacketPlayerBlockInteract) :
    ((pkt.Face < FaceMinValid ∨ pkt.Face > FaceMaxValid) ∨
        IsWithinDistanceOf (MidPointToAbsXyz pkt.Block) player.position
          MaxInteractDistance = false ∨
        ShardClientForBlockXyz pkt.Block = none →
      handlePacketPlayerBlockInteract FaceMinValid FaceMaxValid MaxInteractDistance
        MidPointToAbsXyz IsWithinDistanceOf ShardClientForBlockXyz HeldItem player pkt
        = player) ∧
    (∀ shardClient : Nat,
      FaceMinValid ≤ pkt.Face ∧ pkt.Face ≤ FaceMaxValid →
        IsWithinDistanceOf (MidPointToAbsXyz pkt.Block) player.position
          MaxInteractDistance = true →
        ShardClientForBlockXyz pkt.Block = some shardClient →
      handlePacketPlayerBlockInteract FaceMinValid FaceMaxValid MaxInteractDistance
        MidPointToAbsXyz IsWithinDistanceOf ShardClientForBlockXyz HeldItem player pkt
        = { player with
            shardRequests := player.shardRequests ++
              [ShardRequest.ReqInteractBlock shardClient HeldItem pkt.Block pkt.Face] }) := by
  refine ⟨?_, ?_⟩
  · intro h
    unfold handlePacketPlayerBlockInteract
    by_cases hf : pkt.Face < FaceMinValid ∨ pkt.Face > FaceMaxValid
    · rw [if_pos hf]
    · rw [if_neg hf]
      rcases h with h | h | h
      · exact absurd h hf
      · simp [h]
      · simp only [h]
        split_ifs <;> rfl
  · intro shardClient hf hd hs
    have hf' : ¬ (pkt.Face < FaceMinValid ∨ pkt.Face > FaceMaxValid) := by omega
    simp [handlePacketPlayerBlockInteract, hf', hd, hs]

/-- C26 for a packet with a face out of range, and for a valid interaction. -/
theorem handlePacketPlayerBlockInteract_spec_witness :
    handlePacketPlayerBlockInteract 0 5 6 (fun b => ⟨b.X.toNat, b.Y.toNat, b.Z.toNat⟩)
        (fun a b _ => decide (a = b)) (fun _ => some 1) ⟨4, 1, 0⟩ (NewPlayer "a")
        ⟨⟨0, 0, 0⟩, 9⟩ = NewPlayer "a" ∧
      (handlePacketPlayerBlockInteract 0 5 6 (fun b => ⟨b.X.toNat, b.Y.toNat, b.Z.toNat⟩)
        (fun a b _ => decide (a = b)) (fun _ => some 1) ⟨4, 1, 0⟩ (NewPlayer "a")
        ⟨⟨0, 0, 0⟩, 2⟩).shardRequests
        = [ShardRequest.ReqInteractBlock 1 ⟨4, 1, 0⟩ ⟨0, 0, 0⟩ 2] :=
  ⟨(handlePacketPlayerBlockInteract_spec 0 5 6
      (fun b => ⟨b.X.toNat, b.Y.toNat, b.Z.toNat⟩) (fun a b _ => decide (a = b))
      (fun _ => some 1) ⟨4, 1, 0⟩ (NewPlayer "a") ⟨⟨0, 0, 0⟩, 9⟩).1
      (Or.inl (Or.inr (by decide))),
    congrArg Player.shardRequests
      ((handlePacketPlayerBlockInteract_spec 0 5 6
        (fun b => ⟨b.X.toNat, b.Y.toNat, b.Z.toNat⟩) (fun a b _ => decide (a = b))
        (fun _ => some 1) ⟨4, 1, 0⟩ (NewPlayer "a") ⟨⟨0, 0, 0⟩, 2⟩).2 1
        ⟨by decide, by decide⟩ (by decide) rfl)⟩

/-- C28: in every state reached from a state with `ping.running = false` and
`ping.id = 0` by a sequence of calls of `pingNew`, `pingTimeout` and `pingReceived`, in
either mode and for all values of the random generator and of the clock,
`ping.running` is `true` if and only if `ping.id ≠ 0`. -/
theorem ping_running_iff_id (player : Player) (calls : List PingCall)
    (hr : player.ping.running = false) (hi : player.ping.id = 0) :
    (pingCalls player calls).ping.running = true ↔ (pingCalls player calls).ping.id ≠ 0 := by
  have h0 : player.ping.running = true ↔ player.ping.id ≠ 0 := by simp [hr, hi]
  clear hr hi
  unfold pingCalls
  induction calls generalizing player with
  | nil => exact h0
  | cons c cs ih =>
    simp only [List.foldl_cons]
    exact ih (pingCall player c) (pingCall_invariant player c h0)

/-- C28 along a sequence that sends a ping, refuses a bad answer, takes the right one
and sends the next ping from a timer. -/
theorem ping_running_iff_id_witness :
    (NewPlayer "a").ping.running = false ∧ (NewPlayer "a").ping.id = 0 ∧
      ((pingCalls (NewPlayer "a")
          [.pingNew 0 10, .pingReceived false 7 20, .pingReceived true 1 30,
            .pingTimeout 8 40]).ping.running = true ↔
        (pingCalls (NewPlayer "a")
          [.pingNew 0 10, .pingReceived false 7 20, .pingReceived true 1 30,
            .pingTimeout 8 40]).ping.id ≠ 0) :=
  ⟨rfl, rfl, ping_running_iff_id (NewPlayer "a") _ rfl rfl⟩

/-- C29: `pingReceived(0)` leaves the player as it was, in every state and in both modes:
the ping state is unchanged, nothing is broadcast or queued and no stop is requested. -/
theorem pingReceived_zero (playerPingNoCheck : Bool) (player : Player) (now : Int) :
    pingReceived playerPingNoCheck player 0 now = player := by
  simp [pingReceived]

end Player

namespace Chunk

/-! ## Chunk: block index -/

/-- C27: `blockIndex` on a location `(x, y, z)` returns `(0, 0, false)` whenever
`x ≥ 16`, `y ≥ 128` or `z ≥ 16`, and for every location inside the chunk returns `true`,
the index `x*16*128 + z*128 + y`, and the shift `4` when `y` is odd and `0` when `y` is
even; every row of the table of `TestblockIndex` passes. -/
theorem blockIndex_spec (x y z : Int) :
    (x ≥ 16 ∨ y ≥ 128 ∨ z ≥ 16 → blockIndex ⟨x, y, z⟩ = (0, 0, false)) ∧
    (0 ≤ x ∧ x < 16 ∧ 0 ≤ y ∧ y < 128 ∧ 0 ≤ z ∧ z < 16 →
      blockIndex ⟨x, y, z⟩
        = (x * 16 * 128 + z * 128 + y, if y % 2 = 1 then 4 else 0, true)) ∧
    tests.all testPasses = true := by
  refine ⟨?_, ?_, by decide⟩
  · intro h
    have : x < 0 ∨ y < 0 ∨ z < 0 ∨ x ≥ 16 ∨ y ≥ 128 ∨ z ≥ 16 := by omega
    simp only [blockIndex, ChunkSizeH, ChunkSizeY, if_pos this]
  · intro h
    have hn : ¬ (x < 0 ∨ y < 0 ∨ z < 0 ∨ x ≥ 16 ∨ y ≥ 128 ∨ z ≥ 16) := by omega
    simp only [blockIndex, ChunkSizeH, ChunkSizeY, if_neg hn]
    have hi : y + z * 128 + x * 128 * 16 = x * 16 * 128 + z * 128 + y := by ring
    by_cases hy : y % 2 = 1
    · have hp : ¬ (y + z * 128 + x * 128 * 16) % 2 = 0 := by omega
      rw [if_neg hp, if_pos hy, hi]
    · have hp : (y + z * 128 + x * 128 * 16) % 2 = 0 := by omega
      rw [if_pos hp, if_neg hy, hi]

/-- C27 at the locations of the claim: `(0,1,0)`, `(0,127,1)`, `(0,0,2)`, and at a
location outside the chunk. -/
theorem blockIndex_spec_witness :
    blockIndex ⟨0, 1, 0⟩ = (1, 4, true) ∧ blockIndex ⟨0, 127, 1⟩ = (255, 4, true) ∧
      blockIndex ⟨0, 0, 2⟩ = (256, 0, true) ∧ blockIndex ⟨16, 0, 0⟩ = (0, 0, false) :=
  ⟨(blockIndex_spec 0 1 0).2.1 (by decide), (blockIndex_spec 0 127 1).2.1 (by decide),
    (blockIndex_spec 0 0 2).2.1 (by decide), (blockIndex_spec 16 0 0).1 (by decide)⟩

end Chunk

namespace Player

/-! ## Player session: windows -/

/-- The exact result of `closeCurrentWindow` on the fields `nextWindowId`, `curWindow`
and `remoteInv`. -/
theorem closeCurrentWindow_fields (player : Player) (sendClosePacket : Bool) :
    (closeCurrentWindow player sendClosePacket).nextWindowId = player.nextWindowId ∧
      (closeCurrentWindow player sendClosePacket).curWindow = none ∧
      (closeCurrentWindow player sendClosePacket).remoteInv = none := by
  rcases hcw : player.curWindow with _ | w <;> rcases hri : player.remoteInv with _ | r <;>
    simp [closeCurrentWindow, hcw, hri]

/-- One call of `inventorySubscribed` keeps `nextWindowId` within the free range. -/
theorem inventorySubscribed_range (WindowIdFreeMin WindowIdFreeMax : Int)
    (NewWindow : Int → Int → RemoteInventory → Option Window)
    (player : Player) (block : BlockXyz) (invTypeId : Int) (slots : List Slot)
    (hc : WindowIdFreeMin ≤ WindowIdFreeMax)
    (h : WindowIdFreeMin ≤ player.nextWindowId ∧ player.nextWindowId ≤ WindowIdFreeMax) :
    WindowIdFreeMin ≤
        (inventorySubscribed WindowIdFreeMin WindowIdFreeMax NewWindow player block
          invTypeId slots).nextWindowId ∧
      (inventorySubscribed WindowIdFreeMin WindowIdFreeMax NewWindow player block
          invTypeId slots).nextWindowId ≤ WindowIdFreeMax := by
  have hn : (if player.remoteInv ≠ none then closeCurrentWindow player true
      else player).nextWindowId = player.nextWindowId := by
    split_ifs
    · exact (closeCurrentWindow_fields player true).1
    · rfl
  unfold inventorySubscribed
  simp only []
  generalize (if player.remoteInv ≠ none then closeCurrentWindow player true
      else player) = p at hn ⊢
  cases NewWindow invTypeId p.nextWindowId (NewRemoteInventory block slots) with
  | none =>
    simp only [hn]
    exact h
  | some window =>
    simp only [TransmitPacket]
    by_cases hm : p.nextWindowId ≥ WindowIdFreeMax
    · simp [hm, hc]
    · simp [hm]
      omega

/-- A sequence of calls of `inventorySubscribed` keeps `nextWindowId` within the free
range. -/
theorem inventorySubscribedCalls_range (WindowIdFreeMin WindowIdFreeMax : Int)
    (NewWindow : Int → Int → RemoteInventory → Option Window)
    (hc : WindowIdFreeMin ≤ WindowIdFreeMax) (calls : List Subscription) :
    ∀ player : Player,
      WindowIdFreeMin ≤ player.nextWindowId ∧ player.nextWindowId ≤ WindowIdFreeMax →
      WindowIdFreeMin ≤
          (inventorySubscribedCalls WindowIdFreeMin WindowIdFreeMax NewWindow player
            calls).nextWindowId ∧
        (inventorySubscribedCalls WindowIdFreeMin WindowIdFreeMax NewWindow player
            calls).nextWindowId ≤ WindowIdFreeMax := by
  induction calls with
  | nil => intro player h; exact h
  | cons call calls ih =>
    intro player h
    simp only [inventorySubscribedCalls, List.foldl_cons]
    exact ih _ (inventorySubscribed_range WindowIdFreeMin WindowIdFreeMax NewWindow player
      call.block call.invTypeId call.slots hc h)

/-- The player as `inventorySubscribed` has it before it creates the window: the current
window is closed when there is a remote inventory. -/
theorem inventorySubscribed_none (WindowIdFreeMin WindowIdFreeMax : Int)
    (NewWindow : Int → Int → RemoteInventory → Option Window)
    (player : Player) (block : BlockXyz) (invTypeId : Int) (slots : List Slot)
    (hf : NewWindow invTypeId player.nextWindowId (NewRemoteInventory block slots) = none) :
    inventorySubscribed WindowIdFreeMin WindowIdFreeMax NewWindow player block invTypeId
        slots =
      if player.remoteInv ≠ none then closeCurrentWindow player true else player := by
  have hn : (if player.remoteInv ≠ none then closeCurrentWindow player true
      else player).nextWindowId = player.nextWindowId := by
    split_ifs
    · exact (closeCurrentWindow_fields player true).1
    · rfl
  unfold inventorySubscribed
  simp only []
  rw [hn, hf]

/-- The fields that `inventorySubscribed` sets when the window is created. -/
theorem inventorySubscribed_some (WindowIdFreeMin WindowIdFreeMax : Int)
    (NewWindow : Int → Int → RemoteInventory → Option Window)
    (player : Player) (block : BlockXyz) (invTypeId : Int) (slots : List Slot)
    (window : Window)
    (hs : NewWindow invTypeId player.nextWindowId (NewRemoteInventory block slots)
      = some window) :
    (inventorySubscribed WindowIdFreeMin WindowIdFreeMax NewWindow player block invTypeId
        slots).curWindow = some window ∧
      (inventorySubscribed WindowIdFreeMin WindowIdFreeMax NewWindow player block
        invTypeId slots).remoteInv = some (NewRemoteInventory block slots) ∧
      (inventorySubscribed WindowIdFreeMin WindowIdFreeMax NewWindow player block
        invTypeId slots).nextWindowId =
        (if player.nextWindowId ≥ WindowIdFreeMax then WindowIdFreeMin
          else player.nextWindowId + 1) ∧
      (inventorySubscribed WindowIdFreeMin WindowIdFreeMax NewWindow player block
        invTypeId slots).txQueue =
        (if player.remoteInv ≠ none then closeCurrentWindow player true
          else player).txQueue ++
          [[Message.windowOpen window.WindowId, Message.windowItems window.WindowId]] := by
  have hn : (if player.remoteInv ≠ none then closeCurrentWindow player true
      else player).nextWindowId = player.nextWindowId := by
    split_ifs
    · exact (closeCurrentWindow_fields player true).1
    · rfl
  unfold inventorySubscribed
  simp only []
  rw [hn, hs]
  simp only [TransmitPacket, hn]
  by_cases hm : player.nextWindowId ≥ WindowIdFreeMax
  · simp [hm]
  · simp [hm]

/-- C31: a click whose window id is neither `WindowIdInventory` nor the id of the current
window finds no window (`clickedWindow` is `nil`), so that no `Click` is called and the
result is the same whatever the `Click` methods would do; the player gets exactly one
more packet in the queue, made of the acknowledgement with the window id and the
transaction id of the packet and `accepted = false`, followed by the update of the cursor
slot; the cursor and all the other fields stay as they were. -/
theorem handlePacketWindowClick_unknown_window
    (WindowIdInventory WindowIdCursor SlotIdCursor : Int)
    (inventoryClick : Click → TxState × Click)
    (windowClick : Window → Click → TxState × Click)
    (player : Player) (pkt : PacketWindowClick)
    (hi : pkt.WindowId ≠ WindowIdInventory)
    (hw : ∀ curWindow, player.curWindow = some curWindow →
      curWindow.WindowId ≠ pkt.WindowId) :
    clickedWindow WindowIdInventory inventoryClick windowClick player pkt = none ∧
    (∀ (inventoryClick' : Click → TxState × Click)
        (windowClick' : Window → Click → TxState × Click),
      handlePacketWindowClick WindowIdInventory WindowIdCursor SlotIdCursor inventoryClick'
          windowClick' player pkt =
        handlePacketWindowClick WindowIdInventory WindowIdCursor SlotIdCursor
          inventoryClick windowClick player pkt) ∧
    handlePacketWindowClick WindowIdInventory WindowIdCursor SlotIdCursor inventoryClick
        windowClick player pkt =
      { player with
        txQueue := player.txQueue ++
          [[Message.windowTransaction pkt.WindowId pkt.TxId false,
            Message.windowSetSlot WindowIdCursor SlotIdCursor player.cursor.ItemTypeId
              player.cursor.Count player.cursor.Data]] } ∧
    (handlePacketWindowClick WindowIdInventory WindowIdCursor SlotIdCursor inventoryClick
        windowClick player pkt).cursor = player.cursor := by
  have hnone : ∀ (ic : Click → TxState × Click) (wc : Window → Click → TxState × Click),
      clickedWindow WindowIdInventory ic wc player pkt = none := by
    intro ic wc
    unfold clickedWindow
    rw [if_neg hi]
    rcases hcw : player.curWindow with _ | w
    · rfl
    · simp only [if_neg (hw w hcw)]
  have heq : ∀ (ic : Click → TxState × Click) (wc : Window → Click → TxState × Click),
      handlePacketWindowClick WindowIdInventory WindowIdCursor SlotIdCursor ic wc player
          pkt =
        { player with
          txQueue := player.txQueue ++
            [[Message.windowTransaction pkt.WindowId pkt.TxId false,
              Message.windowSetSlot WindowIdCursor SlotIdCursor player.cursor.ItemTypeId
                player.cursor.Count player.cursor.Data]] } := by
    intro ic wc
    simp [handlePacketWindowClick, hnone ic wc, newClick, SendUpdate, TransmitPacket]
  refine ⟨hnone _ _, ?_, heq _ _, ?_⟩
  · intro ic wc
    rw [heq ic wc, heq inventoryClick windowClick]
  · rw [heq inventoryClick windowClick]

/-- C31 for a click on window 9 while window 3 is open and the inventory has id 0: the
`Click` methods would accept, and the one packet queued carries the rejection. -/
theorem handlePacketWindowClick_unknown_window_witness :
    (9 : Int) ≠ 0 ∧
    (handlePacketWindowClick 0 (-1) (-1)
        (fun c => (TxState.TxStateAccepted, { c with Cursor := ⟨5, 1, 0⟩ }))
        (fun _ c => (TxState.TxStateAccepted, { c with Cursor := ⟨5, 1, 0⟩ }))
        { NewPlayer "a" with curWindow := some ⟨3⟩, cursor := ⟨4, 2, 0⟩ }
        ⟨9, 3, false, false, 77, ⟨0, 0, 0⟩⟩).txQueue
      = [[Message.windowTransaction 9 77 false, Message.windowSetSlot (-1) (-1) 4 2 0]] ∧
    (handlePacketWindowClick 0 (-1) (-1)
        (fun c => (TxState.TxStateAccepted, { c with Cursor := ⟨5, 1, 0⟩ }))
        (fun _ c => (TxState.TxStateAccepted, { c with Cursor := ⟨5, 1, 0⟩ }))
        { NewPlayer "a" with curWindow := some ⟨3⟩, cursor := ⟨4, 2, 0⟩ }
        ⟨9, 3, false, false, 77, ⟨0, 0, 0⟩⟩).cursor = ⟨4, 2, 0⟩ :=
  ⟨by decide,
    congrArg Player.txQueue
      (handlePacketWindowClick_unknown_window 0 (-1) (-1)
        (fun c => (TxState.TxStateAccepted, { c with Cursor := ⟨5, 1, 0⟩ }))
        (fun _ c => (TxState.TxStateAccepted, { c with Cursor := ⟨5, 1, 0⟩ }))
        { NewPlayer "a" with curWindow := some ⟨3⟩, cursor := ⟨4, 2, 0⟩ }
        ⟨9, 3, false, false, 77, ⟨0, 0, 0⟩⟩ (by decide)
        (by intro w h; cases h; decide)).2.2.1,
    (handlePacketWindowClick_unknown_window 0 (-1) (-1)
        (fun c => (TxState.TxStateAccepted, { c with Cursor := ⟨5, 1, 0⟩ }))
        (fun _ c => (TxState.TxStateAccepted, { c with Cursor := ⟨5, 1, 0⟩ }))
        { NewPlayer "a" with curWindow := some ⟨3⟩, cursor := ⟨4, 2, 0⟩ }
        ⟨9, 3, false, false, 77, ⟨0, 0, 0⟩⟩ (by decide)
        (by intro w h; cases h; decide)).2.2.2⟩

/-- C32: `nextWindowId` always lies in `[WindowIdFreeMin, WindowIdFreeMax]` (the two
constants being ordered that way).  A new player has `nextWindowId = WindowIdFreeMin`,
and from there every sequence of calls of `inventorySubscribed` leaves it in the range.
For one call on a player whose `nextWindowId` is in the range: it stays in the range;
when `NewWindow`, called with the current `nextWindowId`, creates a window, that window
becomes `curWindow`, the new remote inventory becomes `remoteInv`, and `nextWindowId` is
`WindowIdFreeMin` if it was `WindowIdFreeMax` and one more than it was otherwise; when
`NewWindow` returns `nil`, the player is as the closing of the previous window left it
(`closeCurrentWindow(true)` when there was a remote inventory, untouched otherwise), with
`nextWindowId` as before the call. -/
theorem nextWindowId_in_free_range (WindowIdFreeMin WindowIdFreeMax : Int)
    (NewWindow : Int → Int → RemoteInventory → Option Window)
    (hc : WindowIdFreeMin ≤ WindowIdFreeMax) :
    (∀ name : String, (NewPlayerWith WindowIdFreeMin name).nextWindowId = WindowIdFreeMin) ∧
    (∀ (name : String) (calls : List Subscription),
      WindowIdFreeMin ≤
          (inventorySubscribedCalls WindowIdFreeMin WindowIdFreeMax NewWindow
            (NewPlayerWith WindowIdFreeMin name) calls).nextWindowId ∧
        (inventorySubscribedCalls WindowIdFreeMin WindowIdFreeMax NewWindow
            (NewPlayerWith WindowIdFreeMin name) calls).nextWindowId ≤ WindowIdFreeMax) ∧
    (∀ (player : Player) (block : BlockXyz) (invTypeId : Int) (slots : List Slot),
      WindowIdFreeMin ≤ player.nextWindowId ∧ player.nextWindowId ≤ WindowIdFreeMax →
      (WindowIdFreeMin ≤
          (inventorySubscribed WindowIdFreeMin WindowIdFreeMax NewWindow player block
            invTypeId slots).nextWindowId ∧
        (inventorySubscribed WindowIdFreeMin WindowIdFreeMax NewWindow player block
            invTypeId slots).nextWindowId ≤ WindowIdFreeMax) ∧
      (∀ window : Window,
        NewWindow invTypeId player.nextWindowId (NewRemoteInventory block slots)
            = some window →
          (inventorySubscribed WindowIdFreeMin WindowIdFreeMax NewWindow player block
              invTypeId slots).curWindow = some window ∧
            (inventorySubscribed WindowIdFreeMin WindowIdFreeMax NewWindow player block
              invTypeId slots).remoteInv = some (NewRemoteInventory block slots) ∧
            (inventorySubscribed WindowIdFreeMin WindowIdFreeMax NewWindow player block
              invTypeId slots).nextWindowId =
              (if player.nextWindowId = WindowIdFreeMax then WindowIdFreeMin
                else player.nextWindowId + 1)) ∧
      (NewWindow invTypeId player.nextWindowId (NewRemoteInventory block slots) = none →
        inventorySubscribed WindowIdFreeMin WindowIdFreeMax NewWindow player block
            invTypeId slots =
          (if player.remoteInv ≠ none then closeCurrentWindow player true else player) ∧
        (inventorySubscribed WindowIdFreeMin WindowIdFreeMax NewWindow player block
            invTypeId slots).nextWindowId = player.nextWindowId)) := by
  refine ⟨fun _ => rfl, ?_, ?_⟩
  · intro name calls
    exact inventorySubscribedCalls_range WindowIdFreeMin WindowIdFreeMax NewWindow hc calls
      (NewPlayerWith WindowIdFreeMin name) ⟨le_refl _, hc⟩
  · intro player block invTypeId slots h
    refine ⟨inventorySubscribed_range WindowIdFreeMin WindowIdFreeMax NewWindow player
      block invTypeId slots hc h, ?_, ?_⟩
    · intro window hs
      have hsome := inventorySubscribed_some WindowIdFreeMin WindowIdFreeMax NewWindow
        player block invTypeId slots window hs
      refine ⟨hsome.1, hsome.2.1, ?_⟩
      rw [hsome.2.2.1]
      by_cases hm : player.nextWindowId = WindowIdFreeMax
      · rw [if_pos hm, if_pos (by omega)]
      · rw [if_neg hm, if_neg (by omega)]
    · intro hf
      have hnone := inventorySubscribed_none WindowIdFreeMin WindowIdFreeMax NewWindow
        player block invTypeId slots hf
      refine ⟨hnone, ?_⟩
      rw [hnone]
      split_ifs
      · exact (closeCurrentWindow_fields player true).1
      · rfl

/-- C32 for the free range `[1, 3]`: after four windows were created the next id is 2
again, and it is in the range. -/
theorem nextWindowId_in_free_range_witness :
    (1 : Int) ≤ 3 ∧
    (inventorySubscribedCalls 1 3 (fun _ windowId _ => some ⟨windowId⟩)
        (NewPlayerWith 1 "a")
        [⟨⟨1, 2, 3⟩, 0, []⟩, ⟨⟨1, 2, 3⟩, 0, []⟩, ⟨⟨4, 5, 6⟩, 0, []⟩,
          ⟨⟨1, 2, 3⟩, 0, []⟩]).nextWindowId = 2 ∧
    (1 ≤ (inventorySubscribedCalls 1 3 (fun _ windowId _ => some ⟨windowId⟩)
        (NewPlayerWith 1 "a")
        [⟨⟨1, 2, 3⟩, 0, []⟩, ⟨⟨1, 2, 3⟩, 0, []⟩, ⟨⟨4, 5, 6⟩, 0, []⟩,
          ⟨⟨1, 2, 3⟩, 0, []⟩]).nextWindowId ∧
      (inventorySubscribedCalls 1 3 (fun _ windowId _ => some ⟨windowId⟩)
        (NewPlayerWith 1 "a")
        [⟨⟨1, 2, 3⟩, 0, []⟩, ⟨⟨1, 2, 3⟩, 0, []⟩, ⟨⟨4, 5, 6⟩, 0, []⟩,
          ⟨⟨1, 2, 3⟩, 0, []⟩]).nextWindowId ≤ 3) :=
  ⟨by decide, by decide,
    (nextWindowId_in_free_range 1 3 (fun _ windowId _ => some ⟨windowId⟩) (by decide)).2.1
      "a" [⟨⟨1, 2, 3⟩, 0, []⟩, ⟨⟨1, 2, 3⟩, 0, []⟩, ⟨⟨4, 5, 6⟩, 0, []⟩, ⟨⟨1, 2, 3⟩, 0, []⟩]⟩

end Player

namespace Record

/-! ## Record: recording and replaying -/

/-- Only the `n` low-order bytes of a value are stored by `bePut n`. -/
theorem bePut_mod (n v : Nat) : Proto.bePut n (v % 256 ^ n) = Proto.bePut n v := by
  induction n generalizing v with
  | zero => rfl
  | succ n ih =>
    have h1 : v % 256 ^ (n + 1) / 256 = v / 256 % 256 ^ n := by
      rw [pow_succ, Nat.mul_comm (256 ^ n) 256, Nat.mod_mul_right_div_self]
    have h2 : v % 256 ^ (n + 1) % 256 = v % 256 := by
      rw [pow_succ]
      exact Nat.mod_mul_left_mod v (256 ^ n) 256
    rw [Proto.bePut, Proto.bePut, h1, h2, ih]

/-- The length of a chunk, taken to `int32` and stored as `uint32`, is the length modulo
`2^32`. -/
theorem toUnsigned_toSigned_32 (n : Nat) :
    Proto.toUnsigned 32 (Proto.toSigned 32 (n : Int)) = n % 256 ^ 4 := by
  simp only [Proto.toSigned, Proto.toUnsigned]
  norm_num
  omega

/-- A length below `2^31` is read back from its four bytes. -/
theorem toSigned_length (n : Nat) (h : n < 2147483648) :
    Proto.toSigned 32 ((n % 256 ^ 4 : Nat) : Int) = n := by
  simp only [Proto.toSigned]
  norm_num
  omega

/-- The header that `Read` writes for a chunk of `n` bytes. -/
theorem binaryWriteHeader_length (log : List Nat) (t : Int) (n : Nat) :
    binaryWriteHeader log { Timestamp := t, Length := Proto.toSigned 32 n } =
      log ++ Proto.bePut 8 (Proto.toUnsigned 64 t) ++ Proto.bePut 4 n := by
  simp only [binaryWriteHeader, toUnsigned_toSigned_32, bePut_mod]

/-- The log after a sequence of calls of `Read`, and the time stamp of the recorder. -/
theorem Reads_log (rs : List ReadResult) : ∀ recorder : ReaderRecorder,
    (recorder.Reads rs).log = recorder.log ++ records recorder.lastTimestamp rs := by
  induction rs with
  | nil => intro recorder; simp [ReaderRecorder.Reads, records]
  | cons r rs ih =>
    intro recorder
    have hstep : recorder.Reads (r :: rs) = ((recorder.Read r).1).Reads rs := by
      simp [ReaderRecorder.Reads]
    rw [hstep, ih]
    by_cases he : r.err = none
    · simp only [ReaderRecorder.Read, if_pos he, records, binaryWriteHeader_length,
        List.append_assoc]
    · simp only [ReaderRecorder.Read, if_neg he, records]

/-- Reading the header of a record from the front of the log. -/
theorem binaryReadHeader_record (t n : Nat) (rest : List Nat) :
    binaryReadHeader (Proto.bePut 8 t ++ Proto.bePut 4 n ++ rest) =
      (none,
        { Timestamp := Proto.toSigned 64 ((t % 256 ^ 8 : Nat) : Int)
          Length := Proto.toSigned 32 ((n % 256 ^ 4 : Nat) : Int) },
        rest) := by
  have hl : (Proto.bePut 8 t ++ Proto.bePut 4 n).length = 12 := by
    simp [Proto.length_bePut]
  have ht : (Proto.bePut 8 t ++ Proto.bePut 4 n).take 8 = Proto.bePut 8 t :=
    List.take_left' (Proto.length_bePut 8 t)
  have hd : (Proto.bePut 8 t ++ Proto.bePut 4 n).drop 8 = Proto.bePut 4 n :=
    List.drop_left' (Proto.length_bePut 8 t)
  simp only [binaryReadHeader, Proto.readFull_append _ rest 12 hl, ht, hd,
    Proto.beUint_bePut]

/-- Reading a chunk from the front of the log. -/
theorem logRead_append (data rest : List Nat) :
    logRead (data ++ rest) data.length = (none, data, rest) := by
  unfold logRead
  by_cases h0 : data.length = 0
  · have : data = [] := List.length_eq_zero.mp h0
    subst this
    simp
  · have h1 : ¬ (data ++ rest).length = 0 := by
      rw [List.length_append]; omega
    simp [h0, h1]

/-- Every record takes at least the 12 bytes of its header. -/
theorem chunks_length_le (rs : List ReadResult) : ∀ last : Int,
    12 * (chunks rs).length ≤ (records last rs).length := by
  induction rs with
  | nil => intro last; simp [chunks, records]
  | cons r rs ih =>
    intro last
    by_cases he : r.err = none
    · have := ih r.now
      simp only [chunks, List.filter_cons, he, decide_True, if_true, List.map_cons,
        List.length_cons, records, List.length_append, Proto.length_bePut] at this ⊢
      omega
    · have := ih last
      simp only [chunks, List.filter_cons, he, decide_False, records, if_false] at this ⊢
      exact this

/-- The loop of `Replay` over the records of chunks shorter than `2^31` bytes, from a
buffer shorter than `2^31` bytes and with enough fuel: it returns at the end of the log,
having written the chunks. -/
theorem replayLoop_records (rs : List ReadResult) :
    ∀ (last : Int) (fuel : Nat) (buf : List Nat) (writer : List (List Nat)),
      (∀ r ∈ rs, r.err = none → r.data.length < 2147483648) →
      buf.length < 2147483648 → (chunks rs).length < fuel →
      replayLoop fuel buf { writer := writer, log := records last rs } =
        (Outcome.returned, { writer := writer ++ chunks rs, log := [] }) := by
  induction rs with
  | nil =>
    intro last fuel buf writer _ _ hf
    obtain ⟨fuel, rfl⟩ : ∃ f, fuel = f + 1 := ⟨fuel - 1, by omega⟩
    simp [replayLoop, records, chunks, binaryReadHeader, Proto.readFull]
  | cons r rs ih =>
    intro last fuel buf writer hr hb hf
    have hrs : ∀ r ∈ rs, r.err = none → r.data.length < 2147483648 :=
      fun x hx => hr x (List.mem_cons_of_mem _ hx)
    by_cases he : r.err = none
    · have hlen : r.data.length < 2147483648 := hr r (List.mem_cons_self _ _) he
      have hch : chunks (r :: rs) = r.data :: chunks rs := by
        simp [chunks, List.filter_cons, he]
      rw [hch] at hf ⊢
      simp only [List.length_cons] at hf
      obtain ⟨fuel, rfl⟩ : ∃ f, fuel = f + 1 := ⟨fuel - 1, by omega⟩
      have hrec : records last (r :: rs) =
          Proto.bePut 8 (Proto.toUnsigned 64 (r.now - last)) ++
            Proto.bePut 4 r.data.length ++ (r.data ++ records r.now rs) := by
        simp only [records, if_pos he, List.append_assoc]
      have hbuf : Proto.toSigned 32 ((buf.length : Nat) : Int) = buf.length := by
        simp only [Proto.toSigned]
        norm_num
        omega
      rw [replayLoop]
      simp only [hrec, binaryReadHeader_record, toSigned_length _ hlen, hbuf]
      by_cases hg : (r.data.length : Int) > (buf.length : Int)
      · have hnp : ¬ ((r.data.length : Int) < 0 ∨
            (r.data.length : Int) > ((List.replicate (r.data.length : Int).toNat 0).length
              : Int)) := by
          simp
        simp only [if_pos hg, if_neg hnp, Int.toNat_ofNat, logRead_append]
        have ht : (r.data ++ List.drop r.data.length (List.replicate r.data.length 0)).take
            r.data.length = r.data := by
          simp
        rw [ht]
        have := ih r.now fuel
          (r.data ++ List.drop r.data.length (List.replicate r.data.length 0))
          (writer ++ [r.data]) hrs (by simp; omega) (by omega)
        simpa using this
      · have hnp : ¬ ((r.data.length : Int) < 0 ∨
            (r.data.length : Int) > (buf.length : Int)) := by
          omega
        simp only [if_neg hg, if_neg hnp, Int.toNat_ofNat, logRead_append]
        have ht : (r.data ++ List.drop r.data.length buf).take r.data.length = r.data := by
          simp
        rw [ht]
        have := ih r.now fuel (r.data ++ List.drop r.data.length buf)
          (writer ++ [r.data]) hrs (by simp; omega) (by omega)
        simpa using this
    · have hch : chunks (r :: rs) = chunks rs := by
        simp [chunks, List.filter_cons, he]
      have hrec : records last (r :: rs) = records last rs := by
        simp only [records, if_neg he]
      rw [hch] at hf ⊢
      rw [hrec]
      exact ih last fuel buf writer hrs hb hf

/-- An iteration of the loop of `Replay` on a header whose length field is negative: the
slice expression `buf[:header.Length]` panics, after the header was taken from the log
and before anything is written. -/
theorem replayLoop_negative_length (fuel : Nat) (buf : List Nat) (replayer : ReaderReplayer)
    (header : header) (log : List Nat)
    (hh : binaryReadHeader replayer.log = (none, header, log))
    (hn : header.Length < 0) :
    replayLoop (fuel + 1) buf replayer =
      (Outcome.panicked, { writer := replayer.writer, log := log }) := by
  rw [replayLoop, hh]
  simp only [hn, true_or, if_true]

/-- Recording one chunk of `2^31` bytes and replaying the log: `Replay` panics and the
chunk is not written. -/
theorem Replay_chunk_too_long (data : List Nat) (h : data.length = 2147483648)
    (now last : Int) (writer : List (List Nat)) :
    ReaderReplayer.Replay
        { writer := writer
          log := ((NewReaderRecorder last).Reads
            [{ data := data, err := none, now := now }]).log } =
      (Outcome.panicked, { writer := writer, log := data }) := by
  have hlog : ((NewReaderRecorder last).Reads
      [{ data := data, err := none, now := now }]).log =
      Proto.bePut 8 (Proto.toUnsigned 64 (now - last)) ++ Proto.bePut 4 data.length ++
        data := by
    rw [Reads_log]
    simp [NewReaderRecorder, records]
  rw [hlog, ReaderReplayer.Replay]
  refine replayLoop_negative_length _ _ _ _ data (binaryReadHeader_record _ _ data) ?_
  show Proto.toSigned 32 ((data.length % 256 ^ 4 : Nat) : Int) < 0
  rw [h]
  simp only [Proto.toSigned]
  norm_num

/-- C33, as stated, fails for a chunk of `2^31` bytes (a value that `n` can take where
`int` has 64 bits): `Read` returns `(2147483648, nil)` and records the chunk with the
length bytes `80 00 00 00`, the `int32` value `-2147483648`; `Replay` over that log panics
at `buf[:header.Length]` and has written nothing, where the claim has it write the
chunk. -/
theorem Replay_panics_on_chunk_of_2147483648_bytes :
    ((NewReaderRecorder 0).Read
        { data := List.replicate 2147483648 0, err := none, now := 5 }).2
      = (2147483648, none) ∧
    ((NewReaderRecorder 0).Reads
        [{ data := List.replicate 2147483648 0, err := none, now := 5 }]).log
      = [0, 0, 0, 0, 0, 0, 0, 5] ++ [128, 0, 0, 0] ++ List.replicate 2147483648 0 ∧
    ReaderReplayer.Replay
        { writer := []
          log := ((NewReaderRecorder 0).Reads
            [{ data := List.replicate 2147483648 0, err := none, now := 5 }]).log }
      = (Outcome.panicked, { writer := [], log := List.replicate 2147483648 0 }) := by
  refine ⟨?_, ?_, Replay_chunk_too_long _ (List.length_replicate _ _) 5 0 []⟩
  · simp only [ReaderRecorder.Read, if_true, List.length_replicate]
  · rw [Reads_log]
    simp only [NewReaderRecorder, records, if_true, List.length_replicate,
      List.append_nil, List.nil_append]
    rfl

/-- C33, amended: when every chunk that the wrapped reader returned without error is
shorter than `2^31` bytes, the log of a new recorder after the calls of `Read` holds one
record for each of these chunks, in order (the delay on 8 bytes, the length on 4 bytes,
the data; big-endian), and `Replay` over that log writes exactly these chunks, in order,
after what the writer already holds, and returns with the log used up; every call of
`Read` returns the `(n, err)` of the wrapped reader. -/
theorem record_then_replay (now : Int) (rs : List ReadResult) (writer : List (List Nat))
    (h : ∀ r ∈ rs, r.err = none → r.data.length < 2147483648) :
    ((NewReaderRecorder now).Reads rs).log = records now rs ∧
    ReaderReplayer.Replay
        { writer := writer, log := ((NewReaderRecorder now).Reads rs).log } =
      (Outcome.returned, { writer := writer ++ chunks rs, log := [] }) ∧
    (∀ (recorder : ReaderRecorder) (r : ReadResult),
      (recorder.Read r).2 = (r.data.length, r.err)) := by
  have hlog : ((NewReaderRecorder now).Reads rs).log = records now rs := by
    rw [Reads_log]
    simp [NewReaderRecorder]
  refine ⟨hlog, ?_, ?_⟩
  · rw [hlog, ReaderReplayer.Replay]
    apply replayLoop_records rs now _ _ writer h
    · rw [List.length_replicate]
      omega
    · have := chunks_length_le rs now
      show (chunks rs).length < (records now rs).length / 12 + 1
      omega
  · intro recorder r
    unfold ReaderRecorder.Read
    by_cases he : r.err = none
    · simp only [if_pos he]
    · simp only [if_neg he]

/-- C33, amended, for four calls of `Read`, one of which returned an error and one an
empty chunk. -/
theorem record_then_replay_witness :
    (∀ r ∈ ([⟨[1, 2, 3], none, 10⟩, ⟨[9], some Proto.Error.EOF, 12⟩, ⟨[], none, 15⟩,
        ⟨[7, 7], none, 20⟩] : List ReadResult), r.err = none → r.data.length < 2147483648) ∧
    ReaderReplayer.Replay
        { writer := []
          log := ((NewReaderRecorder 0).Reads
            [⟨[1, 2, 3], none, 10⟩, ⟨[9], some Proto.Error.EOF, 12⟩, ⟨[], none, 15⟩,
              ⟨[7, 7], none, 20⟩]).log } =
      (Outcome.returned, { writer := [[1, 2, 3], [], [7, 7]], log := [] }) :=
  ⟨by decide,
    (record_then_replay 0
      [⟨[1, 2, 3], none, 10⟩, ⟨[9], some Proto.Error.EOF, 12⟩, ⟨[], none, 15⟩,
        ⟨[7, 7], none, 20⟩] [] (by decide)).2.1⟩

end Record

end Chunkymonkey
